import Mathlib

/-!
# Verification of the mcp-auth-proxy request-forwarding core

A shallow embedding of the `go-core-stack/mcp-auth-proxy` repository:
the HMAC request signer (`pkg/auth/signer.go`) and the reverse-proxy
dispatcher / forwarding engine (`pkg/proxy`).  Go standard-library
behaviour the code relies on (`net/http` header operations,
`net/textproto` canonical MIME keys, `net/url` reference resolution,
`crypto/sha256`, `crypto/hmac`, `encoding/hex`, `time` RFC 3339
formatting) is modelled by executable Lean definitions, each documented
with the stdlib function it models.  Machine words are `Nat` reduced
modulo `2 ^ 32` where the Go code uses 32-bit arithmetic.
-/

set_option maxRecDepth 8000

/-! ## ASCII case operations and canonical MIME header keys

Models `net/textproto.CanonicalMIMEHeaderKey`, which Go's
`http.Header.Add/Set/Del/Get/Values` apply to every key.  Go operates
on bytes; header keys that matter here are ASCII, where a byte equals
a `Char` scalar value.  Non-ASCII characters have `toNat ≥ 128` and are
treated as invalid token bytes, exactly as each of their UTF-8 bytes
would be in Go. -/

/-- Byte-wise ASCII lowercase, as in Go (`c + ('a' - 'A')` for uppercase). -/
def lowerC (c : Char) : Char :=
  if 65 ≤ c.toNat ∧ c.toNat ≤ 90 then Char.ofNat (c.toNat + 32) else c

/-- Byte-wise ASCII uppercase, as in Go (`c - ('a' - 'A')` for lowercase). -/
def upperC (c : Char) : Char :=
  if 97 ≤ c.toNat ∧ c.toNat ≤ 122 then Char.ofNat (c.toNat - 32) else c

/-- Valid header-field token bytes, from `net/textproto.isTokenTable`. -/
def ValidTokNat (n : Nat) : Prop :=
  n = 33 ∨ (35 ≤ n ∧ n ≤ 39) ∨ n = 42 ∨ n = 43 ∨ n = 45 ∨ n = 46 ∨
  (48 ≤ n ∧ n ≤ 57) ∨ (65 ≤ n ∧ n ≤ 90) ∨ (94 ≤ n ∧ n ≤ 96) ∨
  (97 ≤ n ∧ n ≤ 122) ∨ n = 124 ∨ n = 126

instance (n : Nat) : Decidable (ValidTokNat n) := by
  unfold ValidTokNat; infer_instance

/-- `validHeaderFieldByte` from `net/textproto`. -/
def validB (c : Char) : Bool := decide (ValidTokNat c.toNat)

/-- The per-character loop of `canonicalMIMEHeaderKey`: uppercase a letter
at the start or after a hyphen, lowercase it otherwise; the flag for the
next position is whether the (rewritten) character is a hyphen. -/
def canonList (up : Bool) : List Char → List Char
  | [] => []
  | c :: cs =>
    let c₂ := if up then upperC c else lowerC c
    c₂ :: canonList (c₂ = '-') cs

/-- `net/textproto.CanonicalMIMEHeaderKey`: keys containing an invalid
token byte are returned unchanged; otherwise the case of every letter is
canonicalised. -/
def canonKey (s : String) : String :=
  if s.data.all validB then String.mk (canonList true s.data) else s

/-! ### Lemmas about the case operations -/

theorem toNat_ofNat_valid (n : Nat) (h : n < 55296) : (Char.ofNat n).toNat = n := by
  have hv : n.isValidChar := Or.inl h
  rw [Char.ofNat, dif_pos hv]
  rfl

theorem char_toNat_inj {c d : Char} (h : c.toNat = d.toNat) : c = d := by
  apply Char.eq_of_val_eq
  apply UInt32.eq_of_toBitVec_eq
  exact BitVec.eq_of_toNat_eq h

theorem toNat_lt (c : Char) : c.toNat < 1114112 := by
  rcases c.valid with h | h
  · exact Nat.lt_trans h (by norm_num)
  · exact h.2

theorem toNat_lowerC (c : Char) :
    (lowerC c).toNat = if 65 ≤ c.toNat ∧ c.toNat ≤ 90 then c.toNat + 32 else c.toNat := by
  unfold lowerC
  split
  next h => exact toNat_ofNat_valid _ (by omega)
  next h => rfl

theorem toNat_upperC (c : Char) :
    (upperC c).toNat = if 97 ≤ c.toNat ∧ c.toNat ≤ 122 then c.toNat - 32 else c.toNat := by
  unfold upperC
  split
  next h => exact toNat_ofNat_valid _ (by omega)
  next h => rfl

theorem lowerC_lowerC (c : Char) : lowerC (lowerC c) = lowerC c := by
  apply char_toNat_inj
  simp only [toNat_lowerC]
  split_ifs <;> omega

theorem upperC_upperC (c : Char) : upperC (upperC c) = upperC c := by
  apply char_toNat_inj
  simp only [toNat_upperC]
  split_ifs <;> omega

theorem lowerC_upperC (c : Char) : lowerC (upperC c) = lowerC c := by
  apply char_toNat_inj
  simp only [toNat_lowerC, toNat_upperC]
  split_ifs <;> omega

theorem upperC_lowerC (c : Char) : upperC (lowerC c) = upperC c := by
  apply char_toNat_inj
  simp only [toNat_upperC, toNat_lowerC]
  split_ifs <;> omega

theorem validB_lowerC (c : Char) : validB (lowerC c) = validB c := by
  unfold validB
  rw [decide_eq_decide]
  rw [toNat_lowerC]
  unfold ValidTokNat
  split <;> omega

/-- The canonicalisation pass only changes letter case, so its result
lowercases to the same string. -/
theorem map_lowerC_canonList (up : Bool) (l : List Char) :
    (canonList up l).map lowerC = l.map lowerC := by
  induction l generalizing up with
  | nil => rfl
  | cons c cs ih =>
    unfold canonList
    simp only [List.map_cons, List.cons.injEq]
    constructor
    · cases up <;> simp [lowerC_upperC, lowerC_lowerC]
    · exact ih _

/-- Canonicalisation is determined by the lowercased key. -/
theorem canonList_map_lowerC (up : Bool) (l : List Char) :
    canonList up (l.map lowerC) = canonList up l := by
  induction l generalizing up with
  | nil => rfl
  | cons c cs ih =>
    unfold canonList
    simp only [List.map_cons]
    have hc : (if up then upperC (lowerC c) else lowerC (lowerC c)) =
        (if up then upperC c else lowerC c) := by
      cases up <;> simp [upperC_lowerC, lowerC_lowerC]
    rw [hc]
    simp only [List.cons.injEq, true_and]
    exact ih _

theorem canonList_canonList (up : Bool) (l : List Char) :
    canonList up (canonList up l) = canonList up l := by
  induction l generalizing up with
  | nil => rfl
  | cons c cs ih =>
    simp only [canonList]
    have hc : (if up then upperC (if up then upperC c else lowerC c)
        else lowerC (if up then upperC c else lowerC c)) =
        (if up then upperC c else lowerC c) := by
      cases up <;> simp [upperC_upperC, lowerC_lowerC]
    rw [hc]
    simp only [List.cons.injEq, true_and]
    exact ih _

theorem all_validB_map_lowerC (l : List Char) :
    (l.map lowerC).all validB = l.all validB := by
  induction l with
  | nil => rfl
  | cons c cs ih => simp [List.all_cons, validB_lowerC, ih]

/-- ASCII-lowercasing of a string, the case-insensitive comparison key. -/
def lowerStr (s : String) : String := String.mk (s.data.map lowerC)

/-- Keys with equal lowercasings canonicalise identically (provided the
lowercasing is a valid token, which forces both keys to be). -/
theorem canonKey_of_lowerStr (s t : String) (hl : lowerStr s = t)
    (ht : t.data.all validB = true) : canonKey s = String.mk (canonList true t.data) := by
  have hdata : s.data.map lowerC = t.data := congrArg String.data hl
  have hvalid : s.data.all validB = true := by
    rw [← all_validB_map_lowerC, hdata]; exact ht
  unfold canonKey
  rw [if_pos hvalid, ← hdata, canonList_map_lowerC]

/-- `canonKey` is idempotent. -/
theorem canonKey_canonKey (s : String) : canonKey (canonKey s) = canonKey s := by
  unfold canonKey
  by_cases hv : s.data.all validB = true
  · rw [if_pos hv]
    have hv₂ : (String.mk (canonList true s.data)).data.all validB = true := by
      show (canonList true s.data).all validB = true
      rw [← all_validB_map_lowerC, map_lowerC_canonList, all_validB_map_lowerC]
      exact hv
    rw [if_pos hv₂]
    show String.mk (canonList true (canonList true s.data)) = _
    rw [canonList_canonList]
  · rw [if_neg hv, if_neg hv]

theorem lowerStr_canonKey (s : String) : lowerStr (canonKey s) = lowerStr s := by
  unfold canonKey lowerStr
  by_cases hv : s.data.all validB = true
  · rw [if_pos hv]
    show String.mk ((canonList true s.data).map lowerC) = _
    rw [map_lowerC_canonList]
  · rw [if_neg hv]

/-! ## The header model

`net/http.Header` is a map from canonical MIME key to a slice of values.
We model it as a list of (key, value) entries: per-name value order is
the `Add` order, matching Go's append-to-slice semantics, and every
claim below is a per-name property, so the list encoding is faithful. -/

/-- A header set: entries of (canonical key, value). -/
abbrev Header := List (String × String)

def emptyHeader : Header := []

/-- `http.Header.Add`: canonicalise the key, append the value. -/
def headerAdd (h : Header) (k v : String) : Header :=
  h ++ [(canonKey k, v)]

/-- `http.Header.Del`: remove every value stored under the canonical key. -/
def headerDel (h : Header) (k : String) : Header :=
  h.filter (fun e => e.1 ≠ canonKey k)

/-- `http.Header.Set`: replace all values of the canonical key by one value. -/
def headerSet (h : Header) (k v : String) : Header :=
  headerDel h k ++ [(canonKey k, v)]

/-- `http.Header.Values`: all values stored under the canonical key, in order. -/
def headerValues (h : Header) (k : String) : List String :=
  (h.filter (fun e => e.1 = canonKey k)).map (fun e => e.2)

/-- `http.Header.Get`: first value under the canonical key, "" when absent. -/
def headerGet (h : Header) (k : String) : String :=
  match headerValues h k with
  | [] => ""
  | v :: _ => v

/-- `copyHeaders` / `copyResponseHeaders` from `pkg/proxy`: `dst.Add(k, v)`
for every entry of `src`. -/
def copyHeaders (dst src : Header) : Header :=
  src.foldl (fun d e => headerAdd d e.1 e.2) dst

/-- The nine hop-by-hop header names, exactly the keys of the `hopHeaders`
map in `pkg/proxy` (already in canonical MIME form there). -/
def hopHeaders : List String :=
  ["Connection", "Proxy-Connection", "Keep-Alive", "Proxy-Authenticate",
   "Proxy-Authorization", "Te", "Trailer", "Transfer-Encoding", "Upgrade"]

/-- `cleanHopHeaders` from `pkg/proxy`: delete each hop-by-hop name.
(Go iterates the map in unspecified order; deletions commute, so a fold
in list order is equivalent.) -/
def cleanHopHeaders (h : Header) : Header :=
  hopHeaders.foldl (fun h k => headerDel h k) h

/-- The lowercasings of the nine hop-by-hop names: the case-insensitive
comparison set used in the claims. -/
def hopHeadersLower : List String :=
  ["connection", "proxy-connection", "keep-alive", "proxy-authenticate",
   "proxy-authorization", "te", "trailer", "transfer-encoding", "upgrade"]

/-- Model of `net/textproto.ReadMIMEHeader` key handling: every key read
off the wire is canonicalised.  Applied to upstream response headers as
parsed by Go's HTTP client transport. -/
def parseWireHeader (wire : List (String × String)) : Header :=
  wire.map (fun e => (canonKey e.1, e.2))

/-! ### Header lemmas -/

theorem copyHeaders_eq (dst src : Header) :
    copyHeaders dst src = dst ++ parseWireHeader src := by
  unfold copyHeaders parseWireHeader
  induction src generalizing dst with
  | nil => simp
  | cons e es ih =>
    simp only [List.foldl_cons, List.map_cons]
    rw [show headerAdd dst e.1 e.2 = dst ++ [(canonKey e.1, e.2)] from rfl, ih]
    simp

theorem canonKey_hop (k : String) (hk : k ∈ hopHeaders) : canonKey k = k := by
  fin_cases hk <;> decide

/-- Membership in `cleanHopHeaders h`: the surviving entries are those of
`h` whose key is none of the nine canonical hop-by-hop names. -/
theorem mem_cleanHopHeaders (h : Header) (e : String × String) :
    e ∈ cleanHopHeaders h ↔ e ∈ h ∧ e.1 ∉ hopHeaders := by
  unfold cleanHopHeaders
  have main : ∀ (ks : List String) (h : Header),
      (∀ k ∈ ks, canonKey k = k) →
      ∀ e : String × String,
      (e ∈ ks.foldl (fun h k => headerDel h k) h ↔ e ∈ h ∧ e.1 ∉ ks) := by
    intro ks
    induction ks with
    | nil => intro h _ e; simp
    | cons k rest ih =>
      intro h hcanon e
      simp only [List.foldl_cons]
      rw [ih (headerDel h k) (fun x hx => hcanon x (List.mem_cons_of_mem _ hx)) e]
      unfold headerDel
      rw [hcanon k (List.mem_cons_self _ _)]
      simp only [List.mem_filter, decide_eq_true_eq, List.mem_cons]
      constructor
      · rintro ⟨⟨he, hne⟩, hnotin⟩
        refine ⟨he, ?_⟩
        rintro (heq | hmem)
        · exact hne heq
        · exact hnotin hmem
      · rintro ⟨he, hnot⟩
        exact ⟨⟨he, fun heq => hnot (Or.inl heq)⟩, fun hmem => hnot (Or.inr hmem)⟩
  exact main hopHeaders h canonKey_hop e

/-- Keys with equal lowercasings have equal canonical keys (when the
reference key is a valid token). -/
theorem canonKey_eq_of_lowerStr_eq (s t : String) (h : lowerStr s = lowerStr t)
    (hv : t.data.all validB = true) : canonKey s = canonKey t := by
  have h₂ : (lowerStr t).data.all validB = true := by
    show (t.data.map lowerC).all validB = true
    rw [all_validB_map_lowerC]; exact hv
  rw [canonKey_of_lowerStr s (lowerStr t) h h₂]
  show String.mk (canonList true (t.data.map lowerC)) = _
  rw [canonList_map_lowerC]
  unfold canonKey
  rw [if_pos hv]

/-- Any key that case-insensitively equals a hop-by-hop name has a
canonical key among the nine canonical hop-by-hop names. -/
theorem canonKey_mem_hop (s : String) (hmem : lowerStr s ∈ hopHeadersLower) :
    canonKey s ∈ hopHeaders := by
  simp only [hopHeadersLower, List.mem_cons, List.not_mem_nil, or_false] at hmem
  rcases hmem with h | h | h | h | h | h | h | h | h
  · rw [canonKey_eq_of_lowerStr_eq s "connection" (by rw [h]; decide) (by decide)]; decide
  · rw [canonKey_eq_of_lowerStr_eq s "proxy-connection" (by rw [h]; decide) (by decide)]; decide
  · rw [canonKey_eq_of_lowerStr_eq s "keep-alive" (by rw [h]; decide) (by decide)]; decide
  · rw [canonKey_eq_of_lowerStr_eq s "proxy-authenticate" (by rw [h]; decide) (by decide)]; decide
  · rw [canonKey_eq_of_lowerStr_eq s "proxy-authorization" (by rw [h]; decide) (by decide)]; decide
  · rw [canonKey_eq_of_lowerStr_eq s "te" (by rw [h]; decide) (by decide)]; decide
  · rw [canonKey_eq_of_lowerStr_eq s "trailer" (by rw [h]; decide) (by decide)]; decide
  · rw [canonKey_eq_of_lowerStr_eq s "transfer-encoding" (by rw [h]; decide) (by decide)]; decide
  · rw [canonKey_eq_of_lowerStr_eq s "upgrade" (by rw [h]; decide) (by decide)]; decide

/-! ## SHA-256, HMAC and hex encoding

Executable model of `crypto/sha256` (FIPS 180-4), `crypto/hmac`
(RFC 2104) and `encoding/hex.EncodeToString`, over byte lists
(`Nat` values below 256) with 32-bit words as `Nat` modulo `2 ^ 32`. -/

def M32 : Nat := 4294967296

/-- 32-bit rotate right. -/
def rotr (n x : Nat) : Nat := ((x >>> n) ||| (x <<< (32 - n))) % M32

/-- 32-bit complement. -/
def not32 (x : Nat) : Nat := x ^^^ 4294967295

def bigSigma0 (x : Nat) : Nat := (rotr 2 x) ^^^ (rotr 13 x) ^^^ (rotr 22 x)

def bigSigma1 (x : Nat) : Nat := (rotr 6 x) ^^^ (rotr 11 x) ^^^ (rotr 25 x)

def smallSigma0 (x : Nat) : Nat := (rotr 7 x) ^^^ (rotr 18 x) ^^^ (x >>> 3)

def smallSigma1 (x : Nat) : Nat := (rotr 17 x) ^^^ (rotr 19 x) ^^^ (x >>> 10)

def chF (x y z : Nat) : Nat := (x &&& y) ^^^ ((not32 x) &&& z)

def majF (x y z : Nat) : Nat := (x &&& y) ^^^ (x &&& z) ^^^ (y &&& z)

/-- The 64 SHA-256 round constants (FIPS 180-4 § 4.2.2), in decimal. -/
def sha256K : List Nat :=
  [1116352408, 1899447441, 3049323471, 3921009573, 961987163, 1508970993,
   2453635748, 2870763221, 3624381080, 310598401, 607225278, 1426881987,
   1925078388, 2162078206, 2614888103, 3248222580, 3835390401, 4022224774,
   264347078, 604807628, 770255983, 1249150122, 1555081692, 1996064986,
   2554220882, 2821834349, 2952996808, 3210313671, 3336571891, 3584528711,
   113926993, 338241895, 666307205, 773529912, 1294757372, 1396182291,
   1695183700, 1986661051, 2177026350, 2456956037, 2730485921, 2820302411,
   3259730800, 3345764771, 3516065817, 3600352804, 4094571909, 275423344,
   430227734, 506948616, 659060556, 883997877, 958139571, 1322822218,
   1537002063, 1747873779, 1955562222, 2024104815, 2227730452, 2361852424,
   2428436474, 2756734187, 3204031479, 3329325298]

/-- Working registers of the compression function. -/
structure Regs where
  a : Nat
  b : Nat
  c : Nat
  d : Nat
  e : Nat
  f : Nat
  g : Nat
  h : Nat

def sha256Init : Regs :=
  ⟨1779033703, 3144134277, 1013904242, 2773480762,
   1359893119, 2600822924, 528734635, 1541459225⟩

/-- One SHA-256 round. -/
def sha256Round (k w : Nat) (r : Regs) : Regs :=
  let t1 := (r.h + bigSigma1 r.e + chF r.e r.f r.g + k + w) % M32
  let t2 := (bigSigma0 r.a + majF r.a r.b r.c) % M32
  ⟨(t1 + t2) % M32, r.a, r.b, r.c, (r.d + t1) % M32, r.e, r.f, r.g⟩

/-- Big-endian 32-bit words from bytes (groups of four). -/
def toWords : List Nat → List Nat
  | b0 :: b1 :: b2 :: b3 :: rest => (((b0 * 256 + b1) * 256 + b2) * 256 + b3) :: toWords rest
  | _ => []

/-- Extend the 16 message words of a block to the 64-entry schedule. -/
def sha256Schedule (ws : List Nat) : List Nat :=
  (List.range 48).foldl
    (fun w _ =>
      let i := w.length
      w ++ [(smallSigma1 (w.getD (i - 2) 0) + w.getD (i - 7) 0 +
             smallSigma0 (w.getD (i - 15) 0) + w.getD (i - 16) 0) % M32])
    ws

/-- Compress one 64-byte block into the running state. -/
def sha256Compress (st : Regs) (block : List Nat) : Regs :=
  let ws := sha256Schedule (toWords block)
  let r := (sha256K.zip ws).foldl (fun r kw => sha256Round kw.1 kw.2 r) st
  ⟨(st.a + r.a) % M32, (st.b + r.b) % M32, (st.c + r.c) % M32, (st.d + r.d) % M32,
   (st.e + r.e) % M32, (st.f + r.f) % M32, (st.g + r.g) % M32, (st.h + r.h) % M32⟩

/-- Merkle–Damgård padding: 0x80, zeros, 64-bit big-endian bit length. -/
def sha256Pad (msg : List Nat) : List Nat :=
  let len := msg.length
  let zeros := (64 - ((len + 9) % 64)) % 64
  let bits := len * 8
  msg ++ [128] ++ List.replicate zeros 0 ++
    [(bits >>> 56) % 256, (bits >>> 48) % 256, (bits >>> 40) % 256, (bits >>> 32) % 256,
     (bits >>> 24) % 256, (bits >>> 16) % 256, (bits >>> 8) % 256, bits % 256]

/-- Split a list into chunks of 64 (fuel-based structural recursion so
that the kernel can evaluate it). -/
def chunks64Aux : Nat → List Nat → List (List Nat)
  | 0, _ => []
  | _, [] => []
  | fuel + 1, l => l.take 64 :: chunks64Aux fuel (l.drop 64)

def chunks64 (l : List Nat) : List (List Nat) := chunks64Aux l.length l

/-- Big-endian bytes of a 32-bit word. -/
def wordBytes (w : Nat) : List Nat :=
  [(w >>> 24) % 256, (w >>> 16) % 256, (w >>> 8) % 256, w % 256]

/-- SHA-256 digest (32 bytes) of a byte list. -/
def sha256 (msg : List Nat) : List Nat :=
  let st := (chunks64 (sha256Pad msg)).foldl sha256Compress sha256Init
  wordBytes st.a ++ wordBytes st.b ++ wordBytes st.c ++ wordBytes st.d ++
  wordBytes st.e ++ wordBytes st.f ++ wordBytes st.g ++ wordBytes st.h

/-- HMAC-SHA256 (`crypto/hmac` with `sha256.New`): block size 64. -/
def hmacSha256 (key msg : List Nat) : List Nat :=
  let k0 := if key.length > 64 then sha256 key else key
  let k := k0 ++ List.replicate (64 - k0.length) 0
  let ipad := k.map (fun b => b ^^^ 54)
  let opad := k.map (fun b => b ^^^ 92)
  sha256 (opad ++ sha256 (ipad ++ msg))

def hexDigit (n : Nat) : Char :=
  "0123456789abcdef".data.getD n '0'

/-- `encoding/hex.EncodeToString`: lowercase hex of a byte list. -/
def hexEncode (bytes : List Nat) : String :=
  String.mk (bytes.flatMap (fun b => [hexDigit (b / 16), hexDigit (b % 16)]))

/-- UTF-8 bytes of a string (Go `[]byte(s)`). -/
def utf8Bytes (s : String) : List Nat :=
  s.data.flatMap (fun c =>
    let n := c.toNat
    if n < 128 then [n]
    else if n < 2048 then [192 + n / 64, 128 + n % 64]
    else if n < 65536 then [224 + n / 4096, 128 + (n / 64) % 64, 128 + n % 64]
    else [240 + n / 262144, 128 + (n / 4096) % 64, 128 + (n / 64) % 64, 128 + n % 64])

/-- Sanity check of the hash model against the repository's own test
vector (`pkg/auth/signer_test.go`). -/
theorem hmac_matches_repo_test_vector :
    hexEncode (hmacSha256 (utf8Bytes "secret456")
      (utf8Bytes "POST\n/v1/test\n2023-11-14T22:13:20Z")) =
    "d1bfbc31386e7c029a0c30216ff01f5ed337b6de4bb97ac539c7a7feec125d05" := by
  decide

/-! ## RFC 3339 timestamps

Model of Go `time.Time.Format(time.RFC3339)` for a UTC instant with
whole seconds, which is what the signer's clock produces
(`time.Now().UTC()` formatted with second precision).  Instants are
seconds since the Unix epoch.  The civil-from-days conversion is the
standard Gregorian algorithm, matching Go's `Time.Date` for t >= 0. -/

def pad2 (n : Nat) : String :=
  if n < 10 then "0" ++ toString n else toString n

def pad4 (n : Nat) : String :=
  if n < 10 then "000" ++ toString n
  else if n < 100 then "00" ++ toString n
  else if n < 1000 then "0" ++ toString n
  else toString n

/-- Gregorian (year, month, day) from days since 1970-01-01. -/
def civilFromDays (days : Nat) : Nat × Nat × Nat :=
  let z := days + 719468
  let era := z / 146097
  let doe := z % 146097
  let yoe := (doe - doe / 1460 + doe / 36524 - doe / 146096) / 365
  let y := yoe + era * 400
  let doy := doe - (365 * yoe + yoe / 4 - yoe / 100)
  let mp := (5 * doy + 2) / 153
  let d := doy - (153 * mp + 2) / 5 + 1
  let m := if mp < 10 then mp + 3 else mp - 9
  (if m ≤ 2 then y + 1 else y, m, d)

/-- RFC 3339 (second precision, UTC) rendering of an epoch-seconds instant. -/
def rfc3339 (t : Nat) : String :=
  let days := t / 86400
  let secs := t % 86400
  let ymd := civilFromDays days
  pad4 ymd.1 ++ "-" ++ pad2 ymd.2.1 ++ "-" ++ pad2 ymd.2.2 ++ "T" ++
    pad2 (secs / 3600) ++ ":" ++ pad2 ((secs % 3600) / 60) ++ ":" ++
    pad2 (secs % 60) ++ "Z"

/-- Sanity check against the repository's tests: `time.Unix(1700000000, 0).UTC()`
formats as `2023-11-14T22:13:20Z`. -/
theorem rfc3339_matches_repo_test_vector :
    rfc3339 1700000000 = "2023-11-14T22:13:20Z" := by
  decide

/-! ## URLs and requests

`net/url.URL` restricted to the fields this program uses.  `path` models
the decoded `URL.Path`; `epath` models `URL.EscapedPath()` (the raw,
still-encoded path actually sent on the wire, `RawPath` when it differs
from the encoding of `Path`). -/

structure URLM where
  scheme : String
  host : String
  path : String
  epath : String
  rawQuery : String
  fragment : String
deriving DecidableEq, Repr

/-- An HTTP request as the proxy sees it: `http.Request` restricted to
the fields the program reads.  The body is already the byte sequence
(`forwardRequest` reads it fully into memory before use). -/
structure Request where
  method : String
  host : String
  remoteAddr : String
  url : URLM
  header : Header
  body : List Nat
deriving DecidableEq

/-! ## The signer (`pkg/auth/signer.go`)

`Signer.Now` is the injectable clock; we model an instant as UTC epoch
seconds (the constructor installs `time.Now().UTC()`).  `AttachSignature`
mutates the request's headers; the model returns the updated request
together with `none`, or the untouched request together with the error
message. -/

structure Signer where
  key : String
  secret : String
  now : Nat

def headerAPIKey : String := "x-api-key-id"

def headerSignature : String := "x-signature"

def headerTimestamp : String := "x-timestamp"

/-- `Signer.AttachSignature`: on empty key or secret, fail without
touching the request; otherwise set the three auth headers computed from
method, decoded URL path and the RFC 3339 timestamp of the clock. -/
def AttachSignature (s : Signer) (req : Request) : Request × Option String :=
  if s.key = "" ∨ s.secret = "" then
    (req, some "signer key and secret must be set")
  else
    let timestamp := rfc3339 s.now
    let payload := String.intercalate "\n" [req.method, req.url.path, timestamp]
    let signature := hexEncode (hmacSha256 (utf8Bytes s.secret) (utf8Bytes payload))
    let h := req.header
    let h := headerSet h headerAPIKey s.key
    let h := headerSet h headerSignature signature
    let h := headerSet h headerTimestamp timestamp
    ({ req with header := h }, none)

/-! ## Path predicates (`pkg/proxy`) -/

/-- `isEventStreamPath`: the canonical MCP streaming path, with one
trailing slash tolerated (`strings.TrimSuffix(path, "/")` removes one
trailing slash when present). -/
def isEventStreamPath (path : String) : Bool :=
  let trimmed := if path.data.getLast? = some '/' then String.mk path.data.dropLast else path
  trimmed ≠ "" && trimmed = "/mcp"

/-- `isDiscoveryPath`: well-known OAuth discovery probes
(`strings.HasPrefix`). -/
def isDiscoveryPath (path : String) : Bool :=
  "/.well-known/oauth-authorization-server".data.isPrefixOf path.data

/-! ## URL reference resolution (`net/url`)

`singleJoiningURL` builds a reference URL carrying only the inbound
path/raw path/query/fragment and resolves it against the configured
base with `URL.ResolveReference`, which implements RFC 3986 §5.3.
`resolvePath` models `net/url.resolvePath` (merge then
remove_dot_segments, operating on the escaped path); `percentDecode`
models the unescaping `setPath` performs on the resolved path. -/

/-- Everything up to and including the last slash (`base[:strings.LastIndex(base, "/")+1]`). -/
def upToLastSlash (l : List Char) : List Char :=
  (l.reverse.dropWhile (fun c => c ≠ '/')).reverse

/-- Split on slashes; `splitSlash "/a" = ["", "a"]` like `strings.Cut` iteration. -/
def splitSlash : List Char → List (List Char)
  | [] => [[]]
  | c :: cs =>
    let r := splitSlash cs
    if c = '/' then [] :: r
    else
      match r with
      | [] => [[c]]
      | h :: t => (c :: h) :: t

/-- Join segments with slashes (inverse of `splitSlash`). -/
def joinSlash : List (List Char) → List Char
  | [] => []
  | [x] => x
  | x :: xs => x ++ '/' :: joinSlash xs

/-- RFC 3986 §5.2.4 remove_dot_segments over a segment list, with an
output stack (`acc`, most recent first).  A trailing "." or ".." leaves
a trailing slash. -/
def rdsAux : List (List Char) → List (List Char) → List (List Char)
  | [], acc => acc.reverse
  | s :: rest, acc =>
    if s = ['.'] then
      (if rest = [] then acc.reverse ++ [[]] else rdsAux rest acc)
    else if s = ['.', '.'] then
      (if rest = [] then (acc.drop 1).reverse ++ [[]] else rdsAux rest (acc.drop 1))
    else rdsAux rest (s :: acc)

/-- `net/url.resolvePath`: merge the reference path with the base path
(RFC 3986 §5.2.3), then remove dot segments. -/
def resolvePath (base ref : String) : String :=
  let full : List Char :=
    if ref = "" then base.data
    else if ref.data.head? ≠ some '/' then upToLastSlash base.data ++ ref.data
    else ref.data
  if full = [] then "" else String.mk (joinSlash (rdsAux (splitSlash full) []))

def isHexDigit (c : Char) : Bool :=
  (48 ≤ c.toNat ∧ c.toNat ≤ 57) ∨ (97 ≤ c.toNat ∧ c.toNat ≤ 102) ∨
  (65 ≤ c.toNat ∧ c.toNat ≤ 70)

def hexVal (c : Char) : Nat :=
  if c.toNat ≤ 57 then c.toNat - 48
  else if c.toNat ≤ 70 then c.toNat - 55
  else c.toNat - 87

/-- Percent-decoding of an escaped path (`net/url.unescape` in path
mode, restricted to ASCII escapes; the program only ever feeds it
already-valid escaped paths). -/
def percentDecodeAux : Nat → List Char → List Char
  | 0, _ => []
  | _, [] => []
  | fuel + 1, '%' :: a :: b :: rest =>
    if isHexDigit a && isHexDigit b then
      Char.ofNat (hexVal a * 16 + hexVal b) :: percentDecodeAux fuel rest
    else '%' :: percentDecodeAux fuel (a :: b :: rest)
  | fuel + 1, c :: rest => c :: percentDecodeAux fuel rest

def percentDecode (s : String) : String :=
  String.mk (percentDecodeAux s.data.length s.data)

/-- `URL.ResolveReference` for a reference with no scheme, host, user or
opaque part — the only shape `singleJoiningURL` constructs.  Scheme and
host come from the base; the path is `resolvePath` of the two escaped
paths; an empty reference path with an empty query inherits the base
query (and the base fragment when the reference fragment is empty). -/
def resolveReference (base ref : URLM) : URLM :=
  { scheme := base.scheme
    host := base.host
    path := percentDecode (resolvePath base.epath ref.epath)
    epath := resolvePath base.epath ref.epath
    rawQuery := if ref.path = "" ∧ ref.rawQuery = "" then base.rawQuery else ref.rawQuery
    fragment :=
      if ref.path = "" ∧ ref.rawQuery = "" ∧ ref.fragment = "" then base.fragment
      else ref.fragment }

/-! ## The proxy (`pkg/proxy`) -/

/-- The configuration fields the request path reads (`config.Config`
plus the constructed signer).  `signer.now` is the value of the injected
clock for the request under consideration. -/
structure ProxyCfg where
  baseURL : URLM
  sessionHeader : String
  sessionValue : String
  signer : Signer

/-- `singleJoiningURL`: resolve the inbound path/raw path/query/fragment
against the configured base. -/
def singleJoiningURL (p : ProxyCfg) (requestURL : URLM) : URLM :=
  resolveReference p.baseURL
    { scheme := "", host := "", path := requestURL.path, epath := requestURL.epath,
      rawQuery := requestURL.rawQuery, fragment := requestURL.fragment }

/-- `net.SplitHostPort`: split "host:port" (or "[host]:port") at the last
colon; `none` models the error return. -/
def splitHostPort (hostport : String) : Option (String × String) :=
  let l := hostport.data
  match (l.reverse.takeWhile (fun c => c ≠ ':')).reverse, (l.reverse.dropWhile (fun c => c ≠ ':')) with
  | _, [] => none
  | port, _ :: revHostRest =>
    let host := revHostRest.reverse
    match host with
    | '[' :: inner =>
      if inner.reverse.take 1 = [']'] ∧ ¬ port.contains ':' then
        some (String.mk (inner.dropLast), String.mk port)
      else none
    | _ =>
      if host.contains ':' ∨ host.contains '[' ∨ host.contains ']' ∨ port.contains ':' then none
      else some (String.mk host, String.mk port)

/-- The `X-Forwarded-For` step of `augmentForwardHeaders`: when the
remote address splits into host and port, set the header to the client
IP, prepending a pre-existing inbound value comma-separated; a
non-splittable remote address leaves the header set unchanged. -/
def xffStep (h : Header) (r : Request) : Header :=
  match splitHostPort r.remoteAddr with
  | some (clientIP, _) =>
    headerSet h "X-Forwarded-For"
      (if headerGet r.header "X-Forwarded-For" ≠ "" then
        headerGet r.header "X-Forwarded-For" ++ ", " ++ clientIP
       else clientIP)
  | none => h

/-- `augmentForwardHeaders`: forwarded-context headers on the outbound
header set, reading pre-existing values from the inbound request;
`X-Forwarded-Proto` echoes the inbound header when present and defaults
to "http"; `X-Forwarded-Host` is the inbound host. -/
def augmentForwardHeaders (h : Header) (r : Request) : Header :=
  headerSet
    (if headerGet r.header "X-Forwarded-Proto" ≠ "" then
      headerSet (xffStep h r) "X-Forwarded-Proto" (headerGet r.header "X-Forwarded-Proto")
     else headerSet (xffStep h r) "X-Forwarded-Proto" "http")
    "X-Forwarded-Host" r.host

/-! ## Forwarding engine and dispatcher (`pkg/proxy`) -/

/-- Classification facets of an error returned by `http.Client.Do`:
whether `errors.Is` finds `context.Canceled` or `context.DeadlineExceeded`
in its chain, and whether it is a `net.Error` whose `Timeout()` reports
true.  `msg` stands for the error text, so the cause stays identifiable. -/
structure TransportFailure where
  isCanceled : Bool
  isDeadlineExceeded : Bool
  isNetTimeout : Bool
  msg : String
deriving DecidableEq, Repr

/-- Result of the single `p.client.Do` call.  A successful response
carries the status, the header entries as parsed off the wire (keys get
canonicalised by `textproto.ReadMIMEHeader`), and the body bytes. -/
inductive TransportResult where
  | ok (status : Nat) (wireHeader : List (String × String)) (body : List Nat)
  | fail (e : TransportFailure)
deriving DecidableEq

/-- The error value `forwardRequest` returns: `httpErr` models the
`*httpError` wrapper (status plus retained cause); `signErr` the wrapped
signing failure; `transportErr` the `fmt.Errorf`-wrapped transport
failure.  Each wrapping variant retains its cause. -/
inductive FwdError where
  | httpErr (status : Nat) (cause : TransportFailure)
  | signErr (msg : String)
  | transportErr (msg : String) (cause : TransportFailure)
deriving DecidableEq, Repr

/-- The upstream response as `forwardRequest` hands it to `ServeHTTP`. -/
structure UpstreamResp where
  status : Nat
  header : Header
  body : List Nat
deriving DecidableEq

/-- The outbound header set before signing: copy inbound headers, strip
hop-by-hop headers, augment forwarded-context headers, and set the
configured session header when a session value is configured. -/
def outboundHeaderBase (p : ProxyCfg) (r : Request) : Header :=
  if p.sessionValue ≠ "" then
    headerSet (augmentForwardHeaders (cleanHopHeaders (copyHeaders emptyHeader r.header)) r)
      p.sessionHeader p.sessionValue
  else augmentForwardHeaders (cleanHopHeaders (copyHeaders emptyHeader r.header)) r

/-- The outbound request handed to the signer: the inbound method and
captured body, the resolved target address (host set to the target's
host) and the rewritten header set. -/
def outboundRequest (p : ProxyCfg) (r : Request) : Request :=
  { method := r.method, host := (singleJoiningURL p r.url).host, remoteAddr := "",
    url := singleJoiningURL p r.url, header := outboundHeaderBase p r, body := r.body }

/-- `Proxy.forwardRequest`: capture the body, resolve the target, build
the outbound request (copy inbound headers, strip hop-by-hop, augment
forwarded headers, optional session header, sign), perform exactly one
transport call and classify its failure.  Returns the result together
with the list of outbound requests actually handed to the transport. -/
def forwardRequest (p : ProxyCfg) (transport : Request → TransportResult) (r : Request) :
    Except FwdError UpstreamResp × List Request :=
  match AttachSignature p.signer (outboundRequest p r) with
  | (_, some e) => (.error (.signErr e), [])
  | (signedReq, none) =>
    match transport signedReq with
    | .fail e =>
      if e.isCanceled || e.isDeadlineExceeded then
        (.error (.httpErr 504 e), [signedReq])
      else if e.isNetTimeout then
        (.error (.httpErr 504 e), [signedReq])
      else
        (.error (.transportErr "perform upstream request" e), [signedReq])
    | .ok status wire body =>
      (.ok { status := status, header := parseWireHeader wire, body := body }, [signedReq])

/-- `http.StatusText` restricted to the codes this program emits. -/
def statusText (code : Nat) : String :=
  if code = 500 then "Internal Server Error"
  else if code = 502 then "Bad Gateway"
  else if code = 504 then "Gateway Timeout"
  else if code = 404 then "Not Found"
  else ""

/-- What the client receives. -/
structure ClientResponse where
  status : Nat
  header : Header
  body : List Nat
deriving DecidableEq

/-- `http.Error(w, msg, code)`: text/plain + nosniff headers, `msg`
followed by a newline as the body. -/
def httpErrorResponse (code : Nat) (msg : String) : ClientResponse :=
  { status := code
    header := headerSet (headerSet emptyHeader "Content-Type" "text/plain; charset=utf-8")
      "X-Content-Type-Options" "nosniff"
    body := utf8Bytes (msg ++ "\n") }

/-- `http.NotFound`, as `serveDiscovery` calls it. -/
def notFoundResponse : ClientResponse := httpErrorResponse 404 "404 page not found"

/-- The cap on buffered upstream error bodies (`maxLogBody = 64 * 1024`). -/
def maxLogBody : Nat := 65536

/-- The dispatcher outcome: either the request was routed to the local
event-stream responder (modelled separately as `serveEventStream`), or a
complete response was written. -/
inductive Outcome where
  | eventStream
  | response (resp : ClientResponse)
deriving DecidableEq

/-- The status `ServeHTTP` writes on an engine error: `errors.As`
recovers an `*httpError` and takes its status; every other error maps to
bad-gateway. -/
def errorStatus : FwdError → Nat
  | .httpErr s _ => s
  | _ => 502

/-- The relay of an upstream response: status preserved; hop-by-hop
headers stripped and the rest copied onto the response writer; bodies
of statuses ≥ 400 buffered up to `maxLogBody` bytes (the buffered bytes
replace the body), other bodies streamed in full. -/
def relayResponse (resp : UpstreamResp) : ClientResponse :=
  { status := resp.status
    header := copyHeaders emptyHeader (cleanHopHeaders resp.header)
    body := if resp.status ≥ 400 then resp.body.take maxLogBody else resp.body }

/-- `Proxy.ServeHTTP`: route GET requests for the streaming path to the
event-stream responder and GET discovery probes to the local 404;
otherwise forward upstream and relay.  Also returns the outbound
requests issued. -/
def serveHTTP (p : ProxyCfg) (transport : Request → TransportResult) (r : Request) :
    Outcome × List Request :=
  if r.method = "GET" ∧ isEventStreamPath r.url.path then
    (.eventStream, [])
  else if r.method = "GET" ∧ isDiscoveryPath r.url.path then
    (.response notFoundResponse, [])
  else
    match forwardRequest p transport r with
    | (.error e, calls) =>
      (.response (httpErrorResponse (errorStatus e) (statusText (errorStatus e))), calls)
    | (.ok resp, calls) =>
      (.response (relayResponse resp), calls)

/-! ## The event-stream responder (`Proxy.serveEventStream`)

The loop waits on two events: the 25-second ticker and the request
context's cancellation; each tick writes one keepalive comment and
flushes.  We model a run by the sequence of events the select statement
observes, plus the success of each write (`io.WriteString` can fail once
the client is gone).  The writer either supports `http.Flusher` or not. -/

inductive SSEEvent where
  | tick
  | cancel
deriving DecidableEq, Repr

inductive SSEExit where
  | canceled
  | writeError
deriving DecidableEq, Repr

/-- The ticker interval, in seconds (`time.NewTicker(25 * time.Second)`). -/
def keepaliveInterval : Nat := 25

/-- The heartbeat loop: cancellation ends the stream; a tick writes
":keepalive\n\n" (ending the stream if the write fails).  `writeOk k`
tells whether the k-th keepalive write succeeds.  A finite observation
window may end with the loop still running (`none`). -/
def runHeartbeatLoop (writeOk : Nat → Bool) : List SSEEvent → Nat → List Nat →
    List Nat × Option SSEExit
  | [], _, acc => (acc, none)
  | .cancel :: _, _, acc => (acc, some .canceled)
  | .tick :: rest, k, acc =>
    if writeOk k then runHeartbeatLoop writeOk rest (k + 1) (acc ++ utf8Bytes ":keepalive\n\n")
    else (acc, some .writeError)

/-- The SSE response headers `serveEventStream` sets. -/
def sseHeader : Header :=
  headerSet (headerSet (headerSet emptyHeader "Content-Type" "text/event-stream")
    "Cache-Control" "no-cache") "Connection" "keep-alive"

inductive SSEOutcome where
  | unsupported (resp : ClientResponse)
  | stream (header : Header) (written : List Nat) (exit : Option SSEExit)
deriving DecidableEq

/-- `Proxy.serveEventStream`: fail with 500 when the writer cannot
flush; otherwise set the SSE headers, write ":ok\n\n" (initial write
outcome `initialWriteOk`), then run the heartbeat loop over the observed
events. -/
def serveEventStream (flusherOk : Bool) (initialWriteOk : Bool) (writeOk : Nat → Bool)
    (events : List SSEEvent) : SSEOutcome :=
  if ¬ flusherOk then
    .unsupported (httpErrorResponse 500 "streaming unsupported")
  else if ¬ initialWriteOk then
    .stream sseHeader [] (some .writeError)
  else
    let run := runHeartbeatLoop writeOk events 0 (utf8Bytes ":ok\n\n")
    .stream sseHeader run.1 run.2

/-- Event sequence observed when the context fires `cancelAt` seconds
into the stream and every earlier tick (at multiples of
`keepaliveInterval`) was observed: used to state the timed form of the
heartbeat claim. -/
def timedEvents (cancelAt : Nat) : List SSEEvent :=
  List.replicate (cancelAt / keepaliveInterval) SSEEvent.tick ++ [SSEEvent.cancel]

/-! ## Header lemmas for the claim proofs -/

theorem headerValues_headerSet_self (h : Header) (k v : String) :
    headerValues (headerSet h k v) k = [v] := by
  unfold headerValues headerSet headerDel
  rw [List.filter_append]
  have h₁ : (h.filter (fun e => e.1 ≠ canonKey k)).filter
      (fun e => e.1 = canonKey k) = [] := by
    rw [List.filter_filter]
    apply List.filter_eq_nil_iff.mpr
    intro e _
    by_cases he : e.1 = canonKey k <;> simp [he]
  have h₂ : ([(canonKey k, v)] : Header).filter (fun e => e.1 = canonKey k) =
      [(canonKey k, v)] := by simp
  rw [h₁, h₂]
  simp

theorem headerValues_headerSet_diff (h : Header) (k v k₂ : String)
    (hne : canonKey k₂ ≠ canonKey k) :
    headerValues (headerSet h k v) k₂ = headerValues h k₂ := by
  unfold headerValues headerSet headerDel
  rw [List.filter_append]
  have h₂ : ([(canonKey k, v)] : Header).filter (fun e => e.1 = canonKey k₂) = [] := by
    simp [Ne.symm hne]
  have h₁ : (h.filter (fun e => e.1 ≠ canonKey k)).filter (fun e => e.1 = canonKey k₂) =
      h.filter (fun e => e.1 = canonKey k₂) := by
    rw [List.filter_filter]
    apply List.filter_congr
    intro e _
    by_cases he : e.1 = canonKey k₂
    · simp [he, hne]
    · simp [he]
  rw [h₁, h₂]
  simp

theorem mem_headerSet (h : Header) (k v : String) (e : String × String) :
    e ∈ headerSet h k v ↔ (e ∈ h ∧ e.1 ≠ canonKey k) ∨ e = (canonKey k, v) := by
  unfold headerSet headerDel
  simp [List.mem_filter]

/-- Every entry key produced by the header operations is canonical. -/
def CanonicalKeys (h : Header) : Prop := ∀ e ∈ h, canonKey e.1 = e.1

theorem canonicalKeys_parseWire (wire : List (String × String)) :
    CanonicalKeys (parseWireHeader wire) := by
  intro e he
  unfold parseWireHeader at he
  rcases List.mem_map.mp he with ⟨x, _, rfl⟩
  exact canonKey_canonKey x.1

theorem canonicalKeys_empty : CanonicalKeys emptyHeader := by
  intro e he
  cases he

theorem canonicalKeys_copyHeaders (dst src : Header) (hd : CanonicalKeys dst) :
    CanonicalKeys (copyHeaders dst src) := by
  intro e he
  rw [copyHeaders_eq] at he
  rcases List.mem_append.mp he with h | h
  · exact hd e h
  · exact canonicalKeys_parseWire src e h

theorem canonicalKeys_headerSet (h : Header) (k v : String) (hc : CanonicalKeys h) :
    CanonicalKeys (headerSet h k v) := by
  intro e he
  rcases (mem_headerSet h k v e).mp he with ⟨hmem, _⟩ | rfl
  · exact hc e hmem
  · exact canonKey_canonKey k

theorem canonicalKeys_headerDel (h : Header) (k : String) (hc : CanonicalKeys h) :
    CanonicalKeys (headerDel h k) := by
  intro e he
  exact hc e (List.mem_filter.mp he).1

theorem canonicalKeys_cleanHopHeaders (h : Header) (hc : CanonicalKeys h) :
    CanonicalKeys (cleanHopHeaders h) := by
  intro e he
  exact hc e ((mem_cleanHopHeaders h e).mp he).1

theorem canonicalKeys_xffStep (h : Header) (r : Request) (hc : CanonicalKeys h) :
    CanonicalKeys (xffStep h r) := by
  unfold xffStep
  rcases splitHostPort r.remoteAddr with _ | ⟨ip, port⟩
  · exact hc
  · exact canonicalKeys_headerSet _ _ _ hc

theorem canonicalKeys_augment (h : Header) (r : Request) (hc : CanonicalKeys h) :
    CanonicalKeys (augmentForwardHeaders h r) := by
  unfold augmentForwardHeaders
  apply canonicalKeys_headerSet
  split <;> exact canonicalKeys_headerSet _ _ _ (canonicalKeys_xffStep _ _ hc)

/-- For a header whose keys are canonical, filtering case-insensitively
by an (already lowercase, valid-token) name is filtering by its
canonical key. -/
theorem filter_lower_eq_filter_canon (h : Header) (t : String)
    (hc : CanonicalKeys h) (hlow : lowerStr t = t) (hval : t.data.all validB = true) :
    h.filter (fun e => lowerStr e.1 = t) = h.filter (fun e => e.1 = canonKey t) := by
  apply List.filter_congr
  intro e he
  by_cases heq : lowerStr e.1 = t
  · have hkey : e.1 = canonKey t := by
      have h₁ : canonKey e.1 = canonKey t :=
        canonKey_eq_of_lowerStr_eq e.1 t (by rw [heq, hlow]) hval
      rw [← hc e he, h₁]
    simp [heq, hkey, lowerStr_canonKey, hlow]
  · have hkey : e.1 ≠ canonKey t := by
      intro hx
      apply heq
      rw [hx, lowerStr_canonKey, hlow]
    simp [heq, hkey]

/-! ## Shared facts about the signer -/

theorem intercalate_three (a b c : String) :
    String.intercalate "\n" [a, b, c] = a ++ "\n" ++ b ++ "\n" ++ c := by
  simp [String.intercalate, String.intercalate.go]

/-- With a non-empty key and secret, `AttachSignature` succeeds and the
three auth headers carry exactly the documented values. -/
theorem attachSignature_values (s : Signer) (r : Request)
    (hk : s.key ≠ "") (hs : s.secret ≠ "") :
    (AttachSignature s r).2 = none ∧
    headerValues (AttachSignature s r).1.header headerSignature =
      [hexEncode (hmacSha256 (utf8Bytes s.secret)
        (utf8Bytes (r.method ++ "\n" ++ r.url.path ++ "\n" ++ rfc3339 s.now)))] ∧
    headerValues (AttachSignature s r).1.header headerTimestamp = [rfc3339 s.now] ∧
    headerValues (AttachSignature s r).1.header headerAPIKey = [s.key] := by
  have hcond : ¬ (s.key = "" ∨ s.secret = "") := by
    rintro (h | h)
    · exact hk h
    · exact hs h
  unfold AttachSignature
  rw [if_neg hcond]
  simp only []
  refine ⟨by trivial, ?_, ?_, ?_⟩
  · rw [headerValues_headerSet_diff _ _ _ _ (by decide), headerValues_headerSet_self,
      intercalate_three]
  · rw [headerValues_headerSet_self]
  · rw [headerValues_headerSet_diff _ _ _ _ (by decide),
      headerValues_headerSet_diff _ _ _ _ (by decide), headerValues_headerSet_self]

/-- C1: for every non-empty key identifier and secret, every method,
path and clock instant, `AttachSignature` succeeds; it sets x-signature
to the lowercase hex HMAC-SHA256 (keyed by the secret) of the canonical
string METHOD ++ "\n" ++ PATH ++ "\n" ++ TS (the query string excluded),
x-timestamp to the RFC 3339 rendering TS of the clock instant, and
x-api-key-id to the key verbatim; repeated calls with the same key,
secret, method, path and clock time produce identical header values. -/
theorem signer_attachSignature_canonical (s : Signer) (r : Request)
    (hk : s.key ≠ "") (hs : s.secret ≠ "") :
    (AttachSignature s r).2 = none ∧
    headerValues (AttachSignature s r).1.header headerSignature =
      [hexEncode (hmacSha256 (utf8Bytes s.secret)
        (utf8Bytes (r.method ++ "\n" ++ r.url.path ++ "\n" ++ rfc3339 s.now)))] ∧
    headerValues (AttachSignature s r).1.header headerTimestamp = [rfc3339 s.now] ∧
    headerValues (AttachSignature s r).1.header headerAPIKey = [s.key] ∧
    (∀ r₂ : Request, r₂.method = r.method → r₂.url.path = r.url.path →
      headerValues (AttachSignature s r₂).1.header headerSignature =
        headerValues (AttachSignature s r).1.header headerSignature ∧
      headerValues (AttachSignature s r₂).1.header headerTimestamp =
        headerValues (AttachSignature s r).1.header headerTimestamp ∧
      headerValues (AttachSignature s r₂).1.header headerAPIKey =
        headerValues (AttachSignature s r).1.header headerAPIKey) := by
  obtain ⟨hok, hsig, hts, hkey⟩ := attachSignature_values s r hk hs
  refine ⟨hok, hsig, hts, hkey, ?_⟩
  intro r₂ hm hp
  obtain ⟨_, hsig₂, hts₂, hkey₂⟩ := attachSignature_values s r₂ hk hs
  rw [hsig, hts, hkey, hsig₂, hts₂, hkey₂, hm, hp]
  exact ⟨rfl, rfl, rfl⟩

/-- The request of the repository's signer test
(`POST https://example.com/v1/test?foo=bar`). -/
def signerTestRequest : Request :=
  { method := "POST", host := "example.com", remoteAddr := "",
    url := { scheme := "https", host := "example.com", path := "/v1/test",
             epath := "/v1/test", rawQuery := "foo=bar", fragment := "" },
    header := emptyHeader, body := [] }

/-- Witness for the C1 theorem at the repository's own test vector. -/
theorem signer_attachSignature_canonical_witness :
    ("key123" : String) ≠ "" ∧ ("secret456" : String) ≠ "" ∧
    headerValues (AttachSignature ⟨"key123", "secret456", 1700000000⟩ signerTestRequest).1.header
        headerSignature =
      ["d1bfbc31386e7c029a0c30216ff01f5ed337b6de4bb97ac539c7a7feec125d05"] ∧
    headerValues (AttachSignature ⟨"key123", "secret456", 1700000000⟩ signerTestRequest).1.header
        headerTimestamp = ["2023-11-14T22:13:20Z"] := by
  refine ⟨by decide, by decide, ?_, ?_⟩
  · have h := signer_attachSignature_canonical ⟨"key123", "secret456", 1700000000⟩
      signerTestRequest (by decide) (by decide)
    rw [h.2.1]
    decide
  · have h := signer_attachSignature_canonical ⟨"key123", "secret456", 1700000000⟩
      signerTestRequest (by decide) (by decide)
    rw [h.2.2.1]
    decide

/-- The upstream base of the repository's forwarding test
(`https://upstream.example.com/root`). -/
def upstreamBase : URLM :=
  { scheme := "https", host := "upstream.example.com", path := "/root",
    epath := "/root", rawQuery := "", fragment := "" }

/-- A plain POST /mcp inbound request, as in the forwarding test. -/
def postMcpRequest : Request :=
  { method := "POST", host := "proxy", remoteAddr := "192.0.2.1:12345",
    url := { scheme := "", host := "", path := "/mcp", epath := "/mcp",
             rawQuery := "", fragment := "" },
    header := [("Content-Type", "application/json")],
    body := utf8Bytes "hello-world" }

/-- The repository test configuration (key-id / secret-value, session
header x-session-id). -/
def testCfg : ProxyCfg :=
  { baseURL := upstreamBase, sessionHeader := "x-session-id",
    sessionValue := "session-123", signer := ⟨"key-id", "secret-value", 1700000000⟩ }

/-- A transport that answers 200 with an empty header and body. -/
def okTransport : Request → TransportResult := fun _ => .ok 200 [] []

/-- C6: `AttachSignature` fails exactly when the key identifier or the
secret is the empty string; on failure it returns a configuration error
with the request's header set unchanged, and the forwarding engine
aborts that single request with a request-scoped signing error value —
no outbound call is made and no panic exists in the model. -/
theorem signer_failure_iff_empty (p : ProxyCfg) (tr : Request → TransportResult) (r : Request) :
    ((AttachSignature p.signer r).2.isSome ↔ (p.signer.key = "" ∨ p.signer.secret = "")) ∧
    ((p.signer.key = "" ∨ p.signer.secret = "") →
      AttachSignature p.signer r = (r, some "signer key and secret must be set") ∧
      forwardRequest p tr r = (.error (.signErr "signer key and secret must be set"), [])) := by
  constructor
  · by_cases hc : p.signer.key = "" ∨ p.signer.secret = ""
    · unfold AttachSignature
      rw [if_pos hc]
      simpa using hc
    · unfold AttachSignature
      rw [if_neg hc]
      simpa using hc
  · intro hc
    constructor
    · unfold AttachSignature
      rw [if_pos hc]
    · unfold forwardRequest AttachSignature
      simp only [eq_true hc, if_true]

/-- Witness for C6: the empty key of a concrete configuration makes the
engine abort with the signing error and zero outbound calls. -/
theorem signer_failure_iff_empty_witness :
    (({ testCfg with signer := ⟨"", "secret-value", 0⟩ } : ProxyCfg).signer.key = "" ∨
      ({ testCfg with signer := ⟨"", "secret-value", 0⟩ } : ProxyCfg).signer.secret = "") ∧
    forwardRequest { testCfg with signer := ⟨"", "secret-value", 0⟩ } okTransport postMcpRequest =
      (.error (.signErr "signer key and secret must be set"), []) := by
  have h := signer_failure_iff_empty { testCfg with signer := ⟨"", "secret-value", 0⟩ }
    okTransport postMcpRequest
  exact ⟨Or.inl rfl, (h.2 (Or.inl rfl)).2⟩

/-! ## Structure of the outbound header set -/

theorem mem_headerSet_imp (h : Header) (k v : String) (e : String × String)
    (he : e ∈ headerSet h k v) : e ∈ h ∨ e.1 = canonKey k := by
  rcases (mem_headerSet h k v e).mp he with ⟨hm, _⟩ | rfl
  · exact Or.inl hm
  · exact Or.inr rfl

theorem mem_xffStep (h : Header) (r : Request) (e : String × String)
    (he : e ∈ xffStep h r) : e ∈ h ∨ e.1 = "X-Forwarded-For" := by
  unfold xffStep at he
  split at he
  · rcases mem_headerSet_imp _ _ _ _ he with h₁ | h₂
    · exact Or.inl h₁
    · right; rw [h₂]; decide
  · exact Or.inl he

theorem mem_augmentForwardHeaders (h : Header) (r : Request) (e : String × String)
    (he : e ∈ augmentForwardHeaders h r) :
    e ∈ h ∨ e.1 = "X-Forwarded-For" ∨ e.1 = "X-Forwarded-Proto" ∨ e.1 = "X-Forwarded-Host" := by
  unfold augmentForwardHeaders at he
  rcases mem_headerSet_imp _ _ _ _ he with he₂ | hk
  · split at he₂ <;>
      (rcases mem_headerSet_imp _ _ _ _ he₂ with he₃ | hk
       · rcases mem_xffStep _ _ _ he₃ with h₄ | h₄
         · exact Or.inl h₄
         · exact Or.inr (Or.inl h₄)
       · right; right; left; rw [hk]; decide)
  · right; right; right; rw [hk]; decide

theorem mem_outboundHeaderBase (p : ProxyCfg) (r : Request) (e : String × String)
    (he : e ∈ outboundHeaderBase p r) :
    e ∈ cleanHopHeaders (copyHeaders emptyHeader r.header) ∨
    e.1 = "X-Forwarded-For" ∨ e.1 = "X-Forwarded-Proto" ∨ e.1 = "X-Forwarded-Host" ∨
    e.1 = canonKey p.sessionHeader := by
  unfold outboundHeaderBase at he
  split at he
  · rcases mem_headerSet_imp _ _ _ _ he with he₂ | hk
    · rcases mem_augmentForwardHeaders _ _ _ he₂ with h₁ | h₁ | h₁ | h₁
      · exact Or.inl h₁
      · exact Or.inr (Or.inl h₁)
      · exact Or.inr (Or.inr (Or.inl h₁))
      · exact Or.inr (Or.inr (Or.inr (Or.inl h₁)))
    · exact Or.inr (Or.inr (Or.inr (Or.inr hk)))
  · rcases mem_augmentForwardHeaders _ _ _ he with h₁ | h₁ | h₁ | h₁
    · exact Or.inl h₁
    · exact Or.inr (Or.inl h₁)
    · exact Or.inr (Or.inr (Or.inl h₁))
    · exact Or.inr (Or.inr (Or.inr (Or.inl h₁)))

/-- Entries that survive `cleanHopHeaders` of a canonical-key header are
never case-insensitively hop-by-hop. -/
theorem cleanHop_no_hop (h : Header) (hc : CanonicalKeys h) (e : String × String)
    (he : e ∈ cleanHopHeaders h) : lowerStr e.1 ∉ hopHeadersLower := by
  obtain ⟨hmem, hnot⟩ := (mem_cleanHopHeaders h e).mp he
  intro hl
  apply hnot
  have hck := canonKey_mem_hop e.1 hl
  rwa [hc e hmem] at hck

/-- With a non-empty key and secret, the header set of the signed
request is the base set with the three auth headers set on top. -/
theorem attachSignature_header_eq (s : Signer) (q : Request)
    (hc : ¬ (s.key = "" ∨ s.secret = "")) :
    (AttachSignature s q).1.header =
      headerSet (headerSet (headerSet q.header headerAPIKey s.key) headerSignature
        (hexEncode (hmacSha256 (utf8Bytes s.secret)
          (utf8Bytes (q.method ++ "\n" ++ q.url.path ++ "\n" ++ rfc3339 s.now)))))
        headerTimestamp (rfc3339 s.now) := by
  unfold AttachSignature
  rw [if_neg hc]
  simp only [intercalate_three]

/-- Membership in the signed outbound header set. -/
theorem mem_signed_header (s : Signer) (q : Request) (e : String × String)
    (hc : ¬ (s.key = "" ∨ s.secret = ""))
    (he : e ∈ (AttachSignature s q).1.header) :
    e ∈ q.header ∨ e.1 = "X-Api-Key-Id" ∨ e.1 = "X-Signature" ∨ e.1 = "X-Timestamp" := by
  rw [attachSignature_header_eq s q hc] at he
  rcases mem_headerSet_imp _ _ _ _ he with he₂ | hk
  · rcases mem_headerSet_imp _ _ _ _ he₂ with he₃ | hk
    · rcases mem_headerSet_imp _ _ _ _ he₃ with he₄ | hk
      · exact Or.inl he₄
      · right; left; rw [hk]; decide
    · right; right; left; rw [hk]; decide
  · right; right; right; rw [hk]; decide

/-- `forwardRequest` on signing failure: request-scoped error, no call. -/
theorem forwardRequest_signErr (p : ProxyCfg) (tr : Request → TransportResult) (r : Request)
    (sq : Request) (e : String)
    (hA : AttachSignature p.signer (outboundRequest p r) = (sq, some e)) :
    forwardRequest p tr r = (.error (.signErr e), []) := by
  unfold forwardRequest
  rw [hA]

/-- `forwardRequest` on transport success: the raw upstream response and
exactly one outbound call. -/
theorem forwardRequest_ok (p : ProxyCfg) (tr : Request → TransportResult) (r : Request)
    (sq : Request) (st : Nat) (w : List (String × String)) (b : List Nat)
    (hA : AttachSignature p.signer (outboundRequest p r) = (sq, none))
    (htr : tr sq = .ok st w b) :
    forwardRequest p tr r = (.ok { status := st, header := parseWireHeader w, body := b }, [sq]) := by
  unfold forwardRequest
  rw [hA]
  simp [htr]

/-- `forwardRequest` on transport failure: the classified error and
exactly one outbound call. -/
theorem forwardRequest_fail (p : ProxyCfg) (tr : Request → TransportResult) (r : Request)
    (sq : Request) (e : TransportFailure)
    (hA : AttachSignature p.signer (outboundRequest p r) = (sq, none))
    (htr : tr sq = .fail e) :
    forwardRequest p tr r =
      (if e.isCanceled || e.isDeadlineExceeded then (.error (.httpErr 504 e), [sq])
       else if e.isNetTimeout then (.error (.httpErr 504 e), [sq])
       else (.error (.transportErr "perform upstream request" e), [sq])) := by
  unfold forwardRequest
  rw [hA]
  simp [htr]

/-- `forwardRequest` issues either no outbound request (signing failed)
or exactly the signed outbound request. -/
theorem forwardRequest_calls (p : ProxyCfg) (tr : Request → TransportResult) (r : Request)
    (o : Request) (ho : o ∈ (forwardRequest p tr r).2) :
    ¬ (p.signer.key = "" ∨ p.signer.secret = "") ∧
    o = (AttachSignature p.signer (outboundRequest p r)).1 := by
  rcases hA : AttachSignature p.signer (outboundRequest p r) with ⟨sq, err⟩
  cases err with
  | some e =>
    rw [forwardRequest_signErr p tr r sq e hA] at ho
    simp at ho
  | none =>
    have hc : ¬ (p.signer.key = "" ∨ p.signer.secret = "") := by
      intro hempty
      have hsome := ((signer_failure_iff_empty p tr (outboundRequest p r)).1).mpr hempty
      rw [hA] at hsome
      simp at hsome
    have hcalls : (forwardRequest p tr r).2 = [sq] := by
      rcases htr : tr sq with ⟨st, w, b⟩ | e
      · rw [forwardRequest_ok p tr r sq st w b hA htr]
      · rw [forwardRequest_fail p tr r sq e hA htr]
        split
        · rfl
        · split <;> rfl
    rw [hcalls] at ho
    simp at ho
    refine ⟨hc, ?_⟩
    exact ho

/-! ## Dispatcher lemmas -/

theorem serveHTTP_calls (p : ProxyCfg) (tr : Request → TransportResult) (r : Request)
    (o : Request) (ho : o ∈ (serveHTTP p tr r).2) : o ∈ (forwardRequest p tr r).2 := by
  unfold serveHTTP at ho
  split at ho
  · simp at ho
  · split at ho
    · simp at ho
    · rcases hF : forwardRequest p tr r with ⟨res, calls⟩
      rw [hF] at ho
      cases res <;> simpa using ho

/-- A successful engine result always carries wire-parsed (canonical)
response header keys. -/
theorem forwardRequest_ok_canonical (p : ProxyCfg) (tr : Request → TransportResult) (r : Request)
    (res : UpstreamResp) (calls : List Request)
    (hF : forwardRequest p tr r = (.ok res, calls)) : CanonicalKeys res.header := by
  unfold forwardRequest at hF
  rcases hA : AttachSignature p.signer (outboundRequest p r) with ⟨sq, err⟩
  rw [hA] at hF
  cases err with
  | some e => simp at hF
  | none =>
    rcases htr : tr sq with ⟨st, w, b⟩ | e
    · simp [htr] at hF
      rw [← hF.1]
      exact canonicalKeys_parseWire w
    · simp only [htr] at hF
      split at hF
      · simp at hF
      · split at hF <;> simp at hF

theorem relayResponse_header (up : UpstreamResp) :
    (relayResponse up).header = copyHeaders emptyHeader (cleanHopHeaders up.header) := rfl

theorem relayResponse_no_hop (up : UpstreamResp) (hc : CanonicalKeys up.header) :
    ∀ e ∈ (relayResponse up).header, lowerStr e.1 ∉ hopHeadersLower := by
  intro e he
  rw [relayResponse_header] at he
  have he₂ := he
  rw [copyHeaders_eq] at he₂
  have he₃ : e ∈ parseWireHeader (cleanHopHeaders up.header) := by
    simpa [emptyHeader] using he₂
  rcases List.mem_map.mp he₃ with ⟨x, hx, rfl⟩
  rw [lowerStr_canonKey]
  exact cleanHop_no_hop up.header hc x hx

theorem httpErrorResponse_no_hop (code : Nat) (msg : String) :
    ∀ e ∈ (httpErrorResponse code msg).header, lowerStr e.1 ∉ hopHeadersLower := by
  have hh : (httpErrorResponse code msg).header =
      [("Content-Type", "text/plain; charset=utf-8"),
       ("X-Content-Type-Options", "nosniff")] := rfl
  rw [hh]
  decide

/-- C2: for every forwarded request as sent upstream and every response
as relayed to the client, none of the nine hop-by-hop header names is
present under case-insensitive comparison, regardless of what the
client or the upstream supplied.  (The configured session header — a
deployment constant, not client or upstream input — is assumed not to
be itself a hop-by-hop name.) -/
theorem hop_by_hop_excluded (p : ProxyCfg) (tr : Request → TransportResult) (r : Request)
    (hsess : lowerStr p.sessionHeader ∉ hopHeadersLower) :
    (∀ o ∈ (serveHTTP p tr r).2, ∀ e ∈ o.header, lowerStr e.1 ∉ hopHeadersLower) ∧
    (∀ resp : ClientResponse, (serveHTTP p tr r).1 = Outcome.response resp →
      ∀ e ∈ resp.header, lowerStr e.1 ∉ hopHeadersLower) := by
  constructor
  · intro o ho e he
    have ho₂ := serveHTTP_calls p tr r o ho
    obtain ⟨hc, hoeq⟩ := forwardRequest_calls p tr r o ho₂
    rw [hoeq] at he
    rcases mem_signed_header p.signer (outboundRequest p r) e hc he with h₁ | h₁ | h₁ | h₁
    · have h₂ : e ∈ outboundHeaderBase p r := h₁
      rcases mem_outboundHeaderBase p r e h₂ with h₃ | h₃ | h₃ | h₃ | h₃
      · exact cleanHop_no_hop _ (canonicalKeys_copyHeaders _ _ canonicalKeys_empty) e h₃
      · rw [h₃]; decide
      · rw [h₃]; decide
      · rw [h₃]; decide
      · rw [h₃, lowerStr_canonKey]; exact hsess
    · rw [h₁]; decide
    · rw [h₁]; decide
    · rw [h₁]; decide
  · intro resp hresp e he
    unfold serveHTTP at hresp
    split at hresp
    · simp at hresp
    · split at hresp
      · simp at hresp
        rw [← hresp] at he
        revert he
        revert e
        decide
      · rcases hF : forwardRequest p tr r with ⟨res, calls⟩
        rw [hF] at hresp
        cases res with
        | error err =>
          simp at hresp
          rw [← hresp] at he
          exact httpErrorResponse_no_hop _ _ e he
        | ok up =>
          simp at hresp
          rw [← hresp] at he
          exact relayResponse_no_hop up (forwardRequest_ok_canonical p tr r up calls hF) e he

/-- Witness for C2 at the repository test configuration with a client
request and an upstream response that both carry hop-by-hop headers. -/
theorem hop_by_hop_excluded_witness :
    lowerStr testCfg.sessionHeader ∉ hopHeadersLower ∧
    ((∀ o ∈ (serveHTTP testCfg
        (fun _ => .ok 200 [("connection", "close"), ("UPGRADE", "h2c"), ("X-Data", "v")] [])
        { postMcpRequest with
          header := [("Connection", "keep-alive"), ("transfer-encoding", "chunked")] }).2,
      ∀ e ∈ o.header, lowerStr e.1 ∉ hopHeadersLower) ∧
     (∀ resp : ClientResponse,
        (serveHTTP testCfg
          (fun _ => .ok 200 [("connection", "close"), ("UPGRADE", "h2c"), ("X-Data", "v")] [])
          { postMcpRequest with
            header := [("Connection", "keep-alive"), ("transfer-encoding", "chunked")] }).1 =
          Outcome.response resp →
        ∀ e ∈ resp.header, lowerStr e.1 ∉ hopHeadersLower)) :=
  ⟨by decide, hop_by_hop_excluded testCfg
    (fun _ => .ok 200 [("connection", "close"), ("UPGRADE", "h2c"), ("X-Data", "v")] [])
    { postMcpRequest with
      header := [("Connection", "keep-alive"), ("transfer-encoding", "chunked")] }
    (by decide)⟩

/-! ## Forwarded-context header values (C9) -/

theorem cleanHopHeaders_eq_filter (h : Header) :
    cleanHopHeaders h = h.filter (fun e => decide (e.1 ∉ hopHeaders)) := by
  unfold cleanHopHeaders
  have main : ∀ (ks : List String) (h : Header), (∀ k ∈ ks, canonKey k = k) →
      ks.foldl (fun h k => headerDel h k) h = h.filter (fun e => decide (e.1 ∉ ks)) := by
    intro ks
    induction ks with
    | nil => intro h _; simp
    | cons k rest ih =>
      intro h hcanon
      simp only [List.foldl_cons]
      rw [ih (headerDel h k) (fun x hx => hcanon x (List.mem_cons_of_mem _ hx))]
      unfold headerDel
      rw [hcanon k (List.mem_cons_self _ _), List.filter_filter]
      apply List.filter_congr
      intro e _
      by_cases h₁ : e.1 = k
      · simp [h₁]
      · by_cases h₂ : e.1 ∈ rest <;> simp [h₁, h₂]
  exact main hopHeaders h canonKey_hop

theorem parseWire_of_canonical (h : Header) (hc : CanonicalKeys h) :
    parseWireHeader h = h := by
  unfold parseWireHeader
  have : ∀ e ∈ h, ((fun e : String × String => (canonKey e.1, e.2)) e) = id e := by
    intro e he
    simp [hc e he]
  rw [List.map_congr_left this, List.map_id]

/-- The relay preserves the values of any non-hop-by-hop name: the proxy
sets nothing on the relayed response. -/
theorem headerValues_relayResponse (res : UpstreamResp) (n : String)
    (hn : canonKey n ∉ hopHeaders) (hc : CanonicalKeys res.header) :
    headerValues (relayResponse res).header n = headerValues res.header n := by
  rw [relayResponse_header, copyHeaders_eq,
    parseWire_of_canonical _ (canonicalKeys_cleanHopHeaders _ hc)]
  show headerValues (emptyHeader ++ cleanHopHeaders res.header) n = _
  rw [cleanHopHeaders_eq_filter]
  unfold headerValues emptyHeader
  rw [List.nil_append, List.filter_filter]
  congr 1
  apply List.filter_congr
  intro e _
  by_cases h₁ : e.1 = canonKey n
  · simp [h₁, hn]
  · simp [h₁]

theorem headerValues_outbound_xf (p : ProxyCfg) (r : Request) (ip port : String)
    (hsess : canonKey p.sessionHeader ∉
      (["X-Forwarded-For", "X-Forwarded-Proto", "X-Forwarded-Host"] : List String))
    (hsp : splitHostPort r.remoteAddr = some (ip, port)) :
    headerValues (outboundHeaderBase p r) "X-Forwarded-For" =
      [if headerGet r.header "X-Forwarded-For" ≠ "" then
        headerGet r.header "X-Forwarded-For" ++ ", " ++ ip else ip] ∧
    headerValues (outboundHeaderBase p r) "X-Forwarded-Proto" =
      [if headerGet r.header "X-Forwarded-Proto" ≠ "" then
        headerGet r.header "X-Forwarded-Proto" else "http"] ∧
    headerValues (outboundHeaderBase p r) "X-Forwarded-Host" = [r.host] := by
  have hne₁ : canonKey "X-Forwarded-For" ≠ canonKey p.sessionHeader := by
    intro hx
    apply hsess
    rw [← hx]
    decide
  have hne₂ : canonKey "X-Forwarded-Proto" ≠ canonKey p.sessionHeader := by
    intro hx
    apply hsess
    rw [← hx]
    decide
  have hne₃ : canonKey "X-Forwarded-Host" ≠ canonKey p.sessionHeader := by
    intro hx
    apply hsess
    rw [← hx]
    decide
  have hxf : ∀ h : Header,
      headerValues (augmentForwardHeaders h r) "X-Forwarded-For" =
        [if headerGet r.header "X-Forwarded-For" ≠ "" then
          headerGet r.header "X-Forwarded-For" ++ ", " ++ ip else ip] := by
    intro h
    unfold augmentForwardHeaders
    rw [headerValues_headerSet_diff _ _ _ _ (by decide)]
    split <;>
      (rw [headerValues_headerSet_diff _ _ _ _ (by decide)]
       unfold xffStep
       rw [hsp]
       exact headerValues_headerSet_self _ _ _)
  have hxp : ∀ h : Header,
      headerValues (augmentForwardHeaders h r) "X-Forwarded-Proto" =
        [if headerGet r.header "X-Forwarded-Proto" ≠ "" then
          headerGet r.header "X-Forwarded-Proto" else "http"] := by
    intro h
    unfold augmentForwardHeaders
    rw [headerValues_headerSet_diff _ _ _ _ (by decide)]
    split
    next hcond => rw [headerValues_headerSet_self]
    next hcond => rw [headerValues_headerSet_self]
  have hxh : ∀ h : Header,
      headerValues (augmentForwardHeaders h r) "X-Forwarded-Host" = [r.host] := by
    intro h
    unfold augmentForwardHeaders
    exact headerValues_headerSet_self _ _ _
  unfold outboundHeaderBase
  split
  · rw [headerValues_headerSet_diff _ _ _ _ hne₁, headerValues_headerSet_diff _ _ _ _ hne₂,
      headerValues_headerSet_diff _ _ _ _ hne₃]
    exact ⟨hxf _, hxp _, hxh _⟩
  · exact ⟨hxf _, hxp _, hxh _⟩

/-- C9: on every forwarded request the forwarded-context headers are set
on the outbound request only: X-Forwarded-For is the client socket IP
with any pre-existing inbound value prepended comma-separated,
X-Forwarded-Proto echoes the inbound forwarded-proto header defaulting
to "http", X-Forwarded-Host is the inbound host; the relayed response
carries exactly the upstream's own values for these names (the proxy
sets none), and locally generated responses carry none. -/
theorem forwarded_context_headers (p : ProxyCfg) (tr : Request → TransportResult) (r : Request)
    (ip port : String)
    (hsess : canonKey p.sessionHeader ∉
      (["X-Forwarded-For", "X-Forwarded-Proto", "X-Forwarded-Host"] : List String))
    (hsp : splitHostPort r.remoteAddr = some (ip, port)) :
    (∀ o ∈ (serveHTTP p tr r).2,
      headerValues o.header "X-Forwarded-For" =
        [if headerGet r.header "X-Forwarded-For" ≠ "" then
          headerGet r.header "X-Forwarded-For" ++ ", " ++ ip else ip] ∧
      headerValues o.header "X-Forwarded-Proto" =
        [if headerGet r.header "X-Forwarded-Proto" ≠ "" then
          headerGet r.header "X-Forwarded-Proto" else "http"] ∧
      headerValues o.header "X-Forwarded-Host" = [r.host]) ∧
    (∀ resp : ClientResponse, (serveHTTP p tr r).1 = Outcome.response resp →
      (∃ res calls, forwardRequest p tr r = (Except.ok res, calls) ∧
        headerValues resp.header "X-Forwarded-For" = headerValues res.header "X-Forwarded-For" ∧
        headerValues resp.header "X-Forwarded-Proto" =
          headerValues res.header "X-Forwarded-Proto" ∧
        headerValues resp.header "X-Forwarded-Host" = headerValues res.header "X-Forwarded-Host") ∨
      (headerValues resp.header "X-Forwarded-For" = [] ∧
       headerValues resp.header "X-Forwarded-Proto" = [] ∧
       headerValues resp.header "X-Forwarded-Host" = [])) := by
  constructor
  · intro o ho
    obtain ⟨hc, hoeq⟩ := forwardRequest_calls p tr r o (serveHTTP_calls p tr r o ho)
    rw [hoeq, attachSignature_header_eq p.signer (outboundRequest p r) hc]
    rw [headerValues_headerSet_diff _ _ _ _ (by decide),
      headerValues_headerSet_diff _ _ _ _ (by decide),
      headerValues_headerSet_diff _ _ _ _ (by decide),
      headerValues_headerSet_diff _ _ _ _ (by decide),
      headerValues_headerSet_diff _ _ _ _ (by decide),
      headerValues_headerSet_diff _ _ _ _ (by decide),
      headerValues_headerSet_diff _ _ _ _ (by decide),
      headerValues_headerSet_diff _ _ _ _ (by decide),
      headerValues_headerSet_diff _ _ _ _ (by decide)]
    exact headerValues_outbound_xf p r ip port hsess hsp
  · intro resp hresp
    unfold serveHTTP at hresp
    split at hresp
    · simp at hresp
    · split at hresp
      · simp at hresp
        right
        rw [← hresp]
        have hh : notFoundResponse.header =
            [("Content-Type", "text/plain; charset=utf-8"),
             ("X-Content-Type-Options", "nosniff")] := rfl
        show headerValues notFoundResponse.header _ = _ ∧
          headerValues notFoundResponse.header _ = _ ∧
          headerValues notFoundResponse.header _ = _
        rw [hh]
        exact ⟨by decide, by decide, by decide⟩
      · rcases hF : forwardRequest p tr r with ⟨res, calls⟩
        rw [hF] at hresp
        cases res with
        | error err =>
          simp at hresp
          right
          rw [← hresp]
          have hh : (httpErrorResponse (errorStatus err) (statusText (errorStatus err))).header =
              [("Content-Type", "text/plain; charset=utf-8"),
               ("X-Content-Type-Options", "nosniff")] := rfl
          show headerValues (httpErrorResponse _ _).header _ = _ ∧
            headerValues (httpErrorResponse _ _).header _ = _ ∧
            headerValues (httpErrorResponse _ _).header _ = _
          rw [hh]
          exact ⟨by decide, by decide, by decide⟩
        | ok up =>
          simp at hresp
          left
          refine ⟨up, calls, rfl, ?_⟩
          rw [← hresp]
          have hcanon := forwardRequest_ok_canonical p tr r up calls hF
          exact ⟨headerValues_relayResponse up _ (by decide) hcanon,
            headerValues_relayResponse up _ (by decide) hcanon,
            headerValues_relayResponse up _ (by decide) hcanon⟩

/-- Witness for C9: concrete request with a prior X-Forwarded-For chain. -/
theorem forwarded_context_headers_witness :
    canonKey testCfg.sessionHeader ∉
      (["X-Forwarded-For", "X-Forwarded-Proto", "X-Forwarded-Host"] : List String) ∧
    splitHostPort "192.0.2.1:12345" = some ("192.0.2.1", "12345") ∧
    (∀ o ∈ (serveHTTP testCfg okTransport
        { postMcpRequest with header := [("X-Forwarded-For", "10.0.0.9")] }).2,
      headerValues o.header "X-Forwarded-For" =
        [if headerGet ({ postMcpRequest with
            header := [("X-Forwarded-For", "10.0.0.9")] } : Request).header
              "X-Forwarded-For" ≠ "" then
          headerGet ({ postMcpRequest with
            header := [("X-Forwarded-For", "10.0.0.9")] } : Request).header
            "X-Forwarded-For" ++ ", " ++ "192.0.2.1"
         else "192.0.2.1"] ∧
      headerValues o.header "X-Forwarded-Proto" =
        [if headerGet ({ postMcpRequest with
            header := [("X-Forwarded-For", "10.0.0.9")] } : Request).header
              "X-Forwarded-Proto" ≠ "" then
          headerGet ({ postMcpRequest with
            header := [("X-Forwarded-For", "10.0.0.9")] } : Request).header
            "X-Forwarded-Proto"
         else "http"] ∧
      headerValues o.header "X-Forwarded-Host" =
        [({ postMcpRequest with header := [("X-Forwarded-For", "10.0.0.9")] } : Request).host]) :=
  ⟨by decide, by decide,
    (forwarded_context_headers testCfg okTransport
      { postMcpRequest with header := [("X-Forwarded-For", "10.0.0.9")] }
      "192.0.2.1" "12345" (by decide) (by decide)).1⟩

/-! ## Signature header exclusivity (C10) -/

theorem canonicalKeys_outboundHeaderBase (p : ProxyCfg) (r : Request) :
    CanonicalKeys (outboundHeaderBase p r) := by
  unfold outboundHeaderBase
  have hbase : CanonicalKeys (augmentForwardHeaders
      (cleanHopHeaders (copyHeaders emptyHeader r.header)) r) :=
    canonicalKeys_augment _ _ (canonicalKeys_cleanHopHeaders _
      (canonicalKeys_copyHeaders _ _ canonicalKeys_empty))
  split
  · exact canonicalKeys_headerSet _ _ _ hbase
  · exact hbase

theorem canonicalKeys_signed (p : ProxyCfg) (r : Request)
    (hc : ¬ (p.signer.key = "" ∨ p.signer.secret = "")) :
    CanonicalKeys (AttachSignature p.signer (outboundRequest p r)).1.header := by
  rw [attachSignature_header_eq _ _ hc]
  exact canonicalKeys_headerSet _ _ _ (canonicalKeys_headerSet _ _ _
    (canonicalKeys_headerSet _ _ _ (canonicalKeys_outboundHeaderBase p r)))

/-- C10: on every forwarded request each of the three signature header
names carries exactly one value under case-insensitive comparison, and
it is the proxy-computed one — any client-supplied value for these
names is overwritten. -/
theorem signature_headers_single (p : ProxyCfg) (tr : Request → TransportResult) (r : Request) :
    ∀ o ∈ (serveHTTP p tr r).2,
      (o.header.filter (fun e => lowerStr e.1 = "x-api-key-id")).map (fun e => e.2) =
        [p.signer.key] ∧
      (o.header.filter (fun e => lowerStr e.1 = "x-signature")).map (fun e => e.2) =
        [hexEncode (hmacSha256 (utf8Bytes p.signer.secret)
          (utf8Bytes (r.method ++ "\n" ++ (singleJoiningURL p r.url).path ++ "\n" ++
            rfc3339 p.signer.now)))] ∧
      (o.header.filter (fun e => lowerStr e.1 = "x-timestamp")).map (fun e => e.2) =
        [rfc3339 p.signer.now] := by
  intro o ho
  obtain ⟨hc, hoeq⟩ := forwardRequest_calls p tr r o (serveHTTP_calls p tr r o ho)
  have hcanH := canonicalKeys_signed p r hc
  rw [hoeq]
  rw [filter_lower_eq_filter_canon _ "x-api-key-id" hcanH (by decide) (by decide),
    filter_lower_eq_filter_canon _ "x-signature" hcanH (by decide) (by decide),
    filter_lower_eq_filter_canon _ "x-timestamp" hcanH (by decide) (by decide)]
  show headerValues _ "x-api-key-id" = _ ∧ headerValues _ "x-signature" = _ ∧
    headerValues _ "x-timestamp" = _
  rw [attachSignature_header_eq _ _ hc]
  simp only [headerAPIKey, headerSignature, headerTimestamp]
  refine ⟨?_, ?_, ?_⟩
  · rw [headerValues_headerSet_diff _ _ _ _ (by decide),
      headerValues_headerSet_diff _ _ _ _ (by decide), headerValues_headerSet_self]
  · rw [headerValues_headerSet_diff _ _ _ _ (by decide), headerValues_headerSet_self]
    rfl
  · rw [headerValues_headerSet_self]

/-- Witness for C10 at the repository test scenario (POST /mcp through
the test configuration): the signed outbound request is the one call. -/
theorem signature_headers_single_witness :
    (AttachSignature testCfg.signer (outboundRequest testCfg postMcpRequest)).1 ∈
      (serveHTTP testCfg okTransport postMcpRequest).2 ∧
    (((AttachSignature testCfg.signer
        (outboundRequest testCfg postMcpRequest)).1.header.filter
          (fun e => lowerStr e.1 = "x-api-key-id")).map (fun e => e.2) =
      [testCfg.signer.key]) :=
  ⟨by decide,
    (signature_headers_single testCfg okTransport postMcpRequest
      (AttachSignature testCfg.signer (outboundRequest testCfg postMcpRequest)).1
      (by decide)).1⟩

/-! ## Shortcut isolation (C3)

The dispatcher short-circuits only GET requests: a POST to the
canonical streaming path is forwarded upstream (the repository's own
forwarding test exercises exactly that), so the claim must be
restricted to GET. -/

/-- Discovery-probe paths are never the canonical streaming path. -/
theorem discovery_not_eventStream (path : String) (hd : isDiscoveryPath path = true) :
    isEventStreamPath path = false := by
  unfold isDiscoveryPath at hd
  obtain ⟨rest, hrest⟩ := List.isPrefixOf_iff_prefix.mp hd
  have hlen : 39 ≤ path.data.length := by
    rw [← hrest, List.length_append]
    have h39 : ("/.well-known/oauth-authorization-server".data).length = 39 := by decide
    omega
  unfold isEventStreamPath
  have hmk : ∀ l : List Char, 5 ≤ l.length → (String.mk l ≠ "" && String.mk l = "/mcp") = false := by
    intro l hl
    have hne : ¬ (String.mk l = "/mcp") := by
      intro heq
      have := congrArg (fun s : String => s.data.length) heq
      simp at this
      omega
    simp [hne]
  split
  · apply hmk
    have := path.data.length_dropLast
    omega
  · apply hmk
    omega

/-- C3 (amended): for every inbound GET request whose path equals the
canonical streaming path /mcp (one trailing slash ignored) or begins
with the discovery-probe prefix, the outbound transport is never
invoked (zero outbound calls), and a GET discovery probe is answered
locally with the not-found response. -/
theorem shortcut_isolation_get (p : ProxyCfg) (tr : Request → TransportResult) (r : Request)
    (hm : r.method = "GET")
    (hpath : isEventStreamPath r.url.path = true ∨ isDiscoveryPath r.url.path = true) :
    (serveHTTP p tr r).2 = [] ∧
    (isDiscoveryPath r.url.path = true →
      (serveHTTP p tr r).1 = Outcome.response notFoundResponse) := by
  rcases hpath with hp | hp
  · unfold serveHTTP
    rw [if_pos ⟨hm, hp⟩]
    exact ⟨rfl, fun hd => absurd hp (by simp [discovery_not_eventStream _ hd])⟩
  · have hev : isEventStreamPath r.url.path = false := discovery_not_eventStream _ hp
    unfold serveHTTP
    rw [if_neg (by simp [hev]), if_pos ⟨hm, hp⟩]
    exact ⟨rfl, fun _ => rfl⟩

/-- Counterexample to C3 as stated: the same streaming path with method
POST is forwarded — the outbound transport is invoked once (the
repository's forwarding test relies on this). -/
theorem shortcut_isolation_counterexample :
    postMcpRequest.url.path = "/mcp" ∧
    isEventStreamPath postMcpRequest.url.path = true ∧
    postMcpRequest.method = "POST" ∧
    (serveHTTP testCfg okTransport postMcpRequest).2.length = 1 := by
  refine ⟨rfl, by decide, rfl, ?_⟩
  decide

/-- The discovery probe of the spec's own scenario. -/
def discoveryRequest : Request :=
  { method := "GET", host := "proxy", remoteAddr := "192.0.2.1:12345",
    url := { scheme := "", host := "",
             path := "/.well-known/oauth-authorization-server/foo",
             epath := "/.well-known/oauth-authorization-server/foo",
             rawQuery := "", fragment := "" },
    header := emptyHeader, body := [] }

/-- Witness for the amended C3 at GET /mcp and a GET discovery probe. -/
theorem shortcut_isolation_get_witness :
    (serveHTTP testCfg okTransport { postMcpRequest with method := "GET" }).2 = [] ∧
    (serveHTTP testCfg okTransport discoveryRequest).2 = [] ∧
    (serveHTTP testCfg okTransport discoveryRequest).1 = Outcome.response notFoundResponse :=
  ⟨(shortcut_isolation_get testCfg okTransport { postMcpRequest with method := "GET" }
      rfl (Or.inl (by decide))).1,
   (shortcut_isolation_get testCfg okTransport discoveryRequest rfl (Or.inr (by decide))).1,
   (shortcut_isolation_get testCfg okTransport discoveryRequest rfl
      (Or.inr (by decide))).2 (by decide)⟩

/-! ## Error-body fidelity (C4) -/

instance {ε α : Type} [DecidableEq ε] [DecidableEq α] : DecidableEq (Except ε α)
  | .error a, .error b =>
    if h : a = b then isTrue (congrArg Except.error h)
    else isFalse (by intro hx; injection hx with h₂; exact h h₂)
  | .error _, .ok _ => isFalse (by intro hx; cases hx)
  | .ok _, .error _ => isFalse (by intro hx; cases hx)
  | .ok a, .ok b =>
    if h : a = b then isTrue (congrArg Except.ok h)
    else isFalse (by intro hx; injection hx with h₂; exact h h₂)

/-- C4: an upstream response with status ≥ 400 is not an error condition
for the relay: the client receives exactly the upstream status and
exactly the first min(length, 65536) bytes of the upstream body, with
hop-by-hop headers stripped and the remaining headers copied. -/
theorem error_body_fidelity (p : ProxyCfg) (tr : Request → TransportResult) (r : Request)
    (res : UpstreamResp) (calls : List Request)
    (h₁ : ¬ (r.method = "GET" ∧ isEventStreamPath r.url.path))
    (h₂ : ¬ (r.method = "GET" ∧ isDiscoveryPath r.url.path))
    (hF : forwardRequest p tr r = (Except.ok res, calls))
    (hst : res.status ≥ 400) :
    (serveHTTP p tr r).1 = Outcome.response
      { status := res.status
        header := copyHeaders emptyHeader (cleanHopHeaders res.header)
        body := res.body.take maxLogBody } ∧
    (res.body.take maxLogBody).length = min res.body.length maxLogBody := by
  constructor
  · unfold serveHTTP
    rw [if_neg h₁, if_neg h₂, hF]
    show Outcome.response (relayResponse res) = _
    unfold relayResponse
    rw [if_pos hst]
  · rw [List.length_take]
    omega

/-- The transport of the repository's error-propagation test: upstream
answers 500 with a short body. -/
def errTransport : Request → TransportResult :=
  fun _ => .ok 500 [("Connection", "close"), ("X-A", "1")] (utf8Bytes "upstream-error")

def upstreamErrResp : UpstreamResp :=
  { status := 500
    header := parseWireHeader [("Connection", "close"), ("X-A", "1")]
    body := utf8Bytes "upstream-error" }

/-- Witness for C4: the 500 response of the error-propagation test is
relayed with its exact status and body. -/
theorem error_body_fidelity_witness :
    (¬ (postMcpRequest.method = "GET" ∧ isEventStreamPath postMcpRequest.url.path)) ∧
    (¬ (postMcpRequest.method = "GET" ∧ isDiscoveryPath postMcpRequest.url.path)) ∧
    forwardRequest testCfg errTransport postMcpRequest =
      (Except.ok upstreamErrResp, (forwardRequest testCfg errTransport postMcpRequest).2) ∧
    upstreamErrResp.status ≥ 400 ∧
    (serveHTTP testCfg errTransport postMcpRequest).1 = Outcome.response
      { status := upstreamErrResp.status
        header := copyHeaders emptyHeader (cleanHopHeaders upstreamErrResp.header)
        body := upstreamErrResp.body.take maxLogBody } := by
  refine ⟨by decide, by decide, by decide, by decide, ?_⟩
  exact (error_body_fidelity testCfg errTransport postMcpRequest upstreamErrResp
    (forwardRequest testCfg errTransport postMcpRequest).2
    (by decide) (by decide) (by decide) (by decide)).1

/-! ## Transport-failure classification (C5) -/

/-- The retained cause of a forwarding error, when one exists. -/
def errCause : FwdError → Option TransportFailure
  | .httpErr _ c => some c
  | .signErr _ => none
  | .transportErr _ c => some c

/-- C5: when the single outbound call fails, a cancelled or
deadline-exceeded context or a transport-reported timeout maps to 504,
every other transport failure to 502; the client receives the plain
status-text body with no upstream headers or body, and the original
cause is retained in the returned error. -/
theorem gateway_error_mapping (p : ProxyCfg) (tr : Request → TransportResult) (r : Request)
    (sq : Request) (e : TransportFailure)
    (h₁ : ¬ (r.method = "GET" ∧ isEventStreamPath r.url.path))
    (h₂ : ¬ (r.method = "GET" ∧ isDiscoveryPath r.url.path))
    (hA : AttachSignature p.signer (outboundRequest p r) = (sq, none))
    (htr : tr sq = .fail e) :
    (∃ err, forwardRequest p tr r = (Except.error err, [sq]) ∧
      errCause err = some e ∧
      errorStatus err =
        (if e.isCanceled || e.isDeadlineExceeded || e.isNetTimeout then 504 else 502)) ∧
    (serveHTTP p tr r).1 = Outcome.response (httpErrorResponse
      (if e.isCanceled || e.isDeadlineExceeded || e.isNetTimeout then 504 else 502)
      (statusText
        (if e.isCanceled || e.isDeadlineExceeded || e.isNetTimeout then 504 else 502))) := by
  have hFR := forwardRequest_fail p tr r sq e hA htr
  have hmain : ∃ err, forwardRequest p tr r = (Except.error err, [sq]) ∧
      errCause err = some e ∧
      errorStatus err =
        (if e.isCanceled || e.isDeadlineExceeded || e.isNetTimeout then 504 else 502) := by
    by_cases hcd : (e.isCanceled || e.isDeadlineExceeded) = true
    · refine ⟨FwdError.httpErr 504 e, ?_, rfl, ?_⟩
      · rw [hFR, if_pos hcd]
      · have : (e.isCanceled || e.isDeadlineExceeded || e.isNetTimeout) = true := by
          rcases Bool.or_eq_true_iff.mp hcd with h | h <;> simp [h]
        rw [if_pos this]
        rfl
    · by_cases hnt : e.isNetTimeout = true
      · refine ⟨FwdError.httpErr 504 e, ?_, rfl, ?_⟩
        · rw [hFR, if_neg hcd, if_pos hnt]
        · rw [if_pos (by simp [hnt])]
          rfl
      · refine ⟨FwdError.transportErr "perform upstream request" e, ?_, rfl, ?_⟩
        · rw [hFR, if_neg hcd, if_neg hnt]
        · have hff : (e.isCanceled || e.isDeadlineExceeded || e.isNetTimeout) = false := by
            simp at hcd hnt ⊢
            exact ⟨hcd, hnt⟩
          rw [hff]
          rfl
  obtain ⟨err, hferr, hcause, hstatus⟩ := hmain
  refine ⟨⟨err, hferr, hcause, hstatus⟩, ?_⟩
  unfold serveHTTP
  rw [if_neg h₁, if_neg h₂, hferr]
  show Outcome.response (httpErrorResponse (errorStatus err) (statusText (errorStatus err))) = _
  rw [hstatus]

/-- Witness for C5: a plain connection failure (no cancellation, no
timeout) maps to 502 Bad Gateway with the status-text body. -/
theorem gateway_error_mapping_witness :
    (¬ (postMcpRequest.method = "GET" ∧ isEventStreamPath postMcpRequest.url.path)) ∧
    AttachSignature testCfg.signer (outboundRequest testCfg postMcpRequest) =
      ((AttachSignature testCfg.signer (outboundRequest testCfg postMcpRequest)).1, none) ∧
    (∃ err, forwardRequest testCfg
        (fun _ => .fail ⟨false, false, false, "connection refused"⟩) postMcpRequest =
        (Except.error err, [(AttachSignature testCfg.signer
          (outboundRequest testCfg postMcpRequest)).1]) ∧
      errCause err = some ⟨false, false, false, "connection refused"⟩ ∧
      errorStatus err = 502) ∧
    (serveHTTP testCfg (fun _ => .fail ⟨false, false, false, "connection refused"⟩)
        postMcpRequest).1 =
      Outcome.response (httpErrorResponse 502 (statusText 502)) := by
  have h := gateway_error_mapping testCfg
    (fun _ => .fail ⟨false, false, false, "connection refused"⟩) postMcpRequest
    (AttachSignature testCfg.signer (outboundRequest testCfg postMcpRequest)).1
    ⟨false, false, false, "connection refused"⟩
    (by decide) (by decide) (by decide) rfl
  exact ⟨by decide, by decide, h.1, h.2⟩

/-! ## URL resolution (C7) -/

theorem splitSlash_ne_nil (l : List Char) : splitSlash l ≠ [] := by
  induction l with
  | nil => simp [splitSlash]
  | cons c cs ih =>
    unfold splitSlash
    rcases hs : splitSlash cs with _ | ⟨h, t⟩
    · exact absurd hs ih
    · split <;> simp

theorem joinSlash_splitSlash (l : List Char) : joinSlash (splitSlash l) = l := by
  induction l with
  | nil => rfl
  | cons c cs ih =>
    unfold splitSlash
    simp only []
    split
    next hc =>
      rcases hs : splitSlash cs with _ | ⟨h, t⟩
      · exact absurd hs (splitSlash_ne_nil cs)
      · rw [hs] at ih
        unfold joinSlash
        rw [← ih]
        subst hc
        rfl
    next hc =>
      rcases hs : splitSlash cs with _ | ⟨h, t⟩
      · exact absurd hs (splitSlash_ne_nil cs)
      · rw [hs] at ih
        cases t with
        | nil =>
          unfold joinSlash at ih ⊢
          rw [← ih]
        | cons t₁ ts =>
          unfold joinSlash at ih ⊢
          rw [← ih]
          simp [List.cons_append]

theorem rdsAux_dotfree (segs : List (List Char)) (acc : List (List Char))
    (h : ∀ s ∈ segs, s ≠ ['.'] ∧ s ≠ ['.', '.']) :
    rdsAux segs acc = acc.reverse ++ segs := by
  induction segs generalizing acc with
  | nil => simp [rdsAux]
  | cons s rest ih =>
    obtain ⟨h₁, h₂⟩ := h s (List.mem_cons_self _ _)
    unfold rdsAux
    rw [if_neg h₁, if_neg h₂, ih _ (fun x hx => h x (List.mem_cons_of_mem _ hx))]
    simp

theorem resolvePath_absolute_dotfree (base ref : String)
    (h₁ : ref.data.head? = some '/')
    (h₂ : ∀ seg ∈ splitSlash ref.data, seg ≠ ['.'] ∧ seg ≠ ['.', '.']) :
    resolvePath base ref = ref := by
  have hne : ¬ ref = "" := by
    intro h
    subst h
    simp at h₁
  have hdata : ref.data ≠ [] := by
    intro h
    rw [h] at h₁
    simp at h₁
  unfold resolvePath
  have hh : ¬ (ref.data.head? ≠ some '/') := by simp [h₁]
  rw [if_neg hne, if_neg hh, if_neg hdata, rdsAux_dotfree _ _ h₂]
  simp [joinSlash_splitSlash]

/-- C7: for every forwarded request with an absolute, dot-free escaped
path, the outbound address is the standard reference resolution of the
inbound path/raw path/query/fragment against the configured base:
scheme and host come from the base, the raw (escaped) path is preserved
without re-encoding, the query and fragment are the inbound ones, and
the base's own path is replaced entirely rather than prefixed. -/
theorem url_resolution (p : ProxyCfg) (u : URLM)
    (hslash : u.epath.data.head? = some '/')
    (hdot : ∀ seg ∈ splitSlash u.epath.data, seg ≠ ['.'] ∧ seg ≠ ['.', '.'])
    (hpath : u.path ≠ "") :
    singleJoiningURL p u =
      { scheme := p.baseURL.scheme, host := p.baseURL.host,
        path := percentDecode u.epath, epath := u.epath,
        rawQuery := u.rawQuery, fragment := u.fragment } := by
  unfold singleJoiningURL resolveReference
  dsimp only
  rw [resolvePath_absolute_dotfree p.baseURL.epath u.epath hslash hdot]
  simp only [URLM.mk.injEq]
  refine ⟨by trivial, by trivial, by trivial, by trivial, ?_, ?_⟩
  · split
    next hx => exact absurd hx.1 hpath
    next => rfl
  · split
    next hx => exact absurd hx.1 hpath
    next => rfl

/-- Witness for C7: the repository test base (path /root) with inbound
path /mcp yields outbound host upstream.example.com and path /mcp — the
base path is replaced, not prefixed. -/
theorem url_resolution_witness :
    (postMcpRequest.url.epath.data.head? = some '/') ∧
    singleJoiningURL testCfg postMcpRequest.url =
      { scheme := "https", host := "upstream.example.com", path := "/mcp",
        epath := "/mcp", rawQuery := "", fragment := "" } := by
  refine ⟨by decide, ?_⟩
  have h := url_resolution testCfg postMcpRequest.url (by decide)
    (by decide) (by decide)
  rw [h]
  decide

/-! ## Event-stream responder (C8)

The heartbeat loop has two exits in the source: the cancellation signal
(`<-r.Context().Done()`) and a failed keepalive write
(`if _, err := io.WriteString(w, ...); err != nil { return }`), so the
claim's "no other exit condition exists" must admit write failures. -/

theorem runHeartbeatLoop_exit (writeOk : Nat → Bool) (events : List SSEEvent)
    (k : Nat) (acc : List Nat) :
    ((runHeartbeatLoop writeOk events k acc).2 = some SSEExit.canceled →
      SSEEvent.cancel ∈ events) ∧
    ((runHeartbeatLoop writeOk events k acc).2 = some SSEExit.writeError →
      ∃ j, writeOk j = false) ∧
    ((runHeartbeatLoop writeOk events k acc).2 = none → SSEEvent.cancel ∉ events) := by
  induction events generalizing k acc with
  | nil => simp [runHeartbeatLoop]
  | cons ev rest ih =>
    cases ev with
    | cancel => simp [runHeartbeatLoop]
    | tick =>
      unfold runHeartbeatLoop
      by_cases hw : writeOk k = true
      · rw [if_pos hw]
        obtain ⟨ih₁, ih₂, ih₃⟩ := ih (k + 1) (acc ++ utf8Bytes ":keepalive\n\n")
        refine ⟨fun h => List.mem_cons_of_mem _ (ih₁ h), ih₂, fun h => ?_⟩
        intro hmem
        rcases List.mem_cons.mp hmem with h₂ | h₂
        · cases h₂
        · exact ih₃ h h₂
      · rw [if_neg hw]
        refine ⟨fun h => by simp at h, fun _ => ⟨k, by simpa using hw⟩, fun h => by simp at h⟩

/-- All-successful writes over the timed event sequence: one keepalive
per elapsed interval, exit on the cancellation signal. -/
theorem runHeartbeatLoop_timed (m k : Nat) (acc : List Nat) :
    runHeartbeatLoop (fun _ => true) (List.replicate m SSEEvent.tick ++ [SSEEvent.cancel]) k acc =
      (acc ++ (List.replicate m (utf8Bytes ":keepalive\n\n")).flatten, some SSEExit.canceled) := by
  induction m generalizing k acc with
  | zero => simp [runHeartbeatLoop]
  | succ n ih =>
    rw [List.replicate_succ]
    unfold runHeartbeatLoop
    simp only [List.cons_append, if_pos]
    rw [ih (k + 1) (acc ++ utf8Bytes ":keepalive\n\n")]
    simp [List.replicate_succ, List.flatten_cons, List.append_assoc]

/-- C8 (amended): a non-flushing writer fails immediately with the
internal error and no stream bytes; otherwise the SSE headers are set
and ":ok" is emitted first; with all writes succeeding, one
":keepalive" is emitted per elapsed 25-time-unit interval and the loop
ends exactly when the cancellation signal fires; in general the loop
ends only on the cancellation signal or on a failed stream write, and
the upstream transport is never involved (a GET for the streaming path
produces zero outbound calls). -/
theorem event_stream_behavior (writeOk : Nat → Bool) (events : List SSEEvent) :
    (∀ initOk, serveEventStream false initOk writeOk events =
      SSEOutcome.unsupported (httpErrorResponse 500 "streaming unsupported")) ∧
    (∀ n : Nat, serveEventStream true true (fun _ => true) (timedEvents n) =
      SSEOutcome.stream sseHeader
        (utf8Bytes ":ok\n\n" ++
          (List.replicate (n / keepaliveInterval) (utf8Bytes ":keepalive\n\n")).flatten)
        (some SSEExit.canceled)) ∧
    (∀ hdr written exit, serveEventStream true true writeOk events =
        SSEOutcome.stream hdr written exit →
      hdr = sseHeader ∧
      written.take 5 = utf8Bytes ":ok\n\n" ∧
      (exit = some SSEExit.canceled → SSEEvent.cancel ∈ events) ∧
      (exit = some SSEExit.writeError → ∃ j, writeOk j = false) ∧
      (exit = none → SSEEvent.cancel ∉ events)) ∧
    (∀ (p : ProxyCfg) (tr : Request → TransportResult) (r : Request),
      r.method = "GET" → isEventStreamPath r.url.path = true →
      (serveHTTP p tr r).1 = Outcome.eventStream ∧ (serveHTTP p tr r).2 = []) := by
  refine ⟨fun initOk => rfl, fun n => ?_, fun hdr written exit h => ?_, fun p tr r hm hp => ?_⟩
  · unfold serveEventStream timedEvents
    rw [if_neg (by simp)]
    rw [if_neg (by simp)]
    rw [runHeartbeatLoop_timed]
  · unfold serveEventStream at h
    rw [if_neg (by simp), if_neg (by simp)] at h
    have hrun : hdr = sseHeader ∧
        (runHeartbeatLoop writeOk events 0 (utf8Bytes ":ok\n\n")).1 = written ∧
        (runHeartbeatLoop writeOk events 0 (utf8Bytes ":ok\n\n")).2 = exit := by
      cases h
      exact ⟨rfl, rfl, rfl⟩
    obtain ⟨hh, hw, hx⟩ := hrun
    obtain ⟨e₁, e₂, e₃⟩ := runHeartbeatLoop_exit writeOk events 0 (utf8Bytes ":ok\n\n")
    refine ⟨hh, ?_, fun hc => e₁ (by rw [hx, hc]), fun hc => e₂ (by rw [hx, hc]),
      fun hc => e₃ (by rw [hx, hc])⟩
    · have hpre : ∀ (ev : List SSEEvent) (k : Nat) (acc : List Nat),
          ∃ suf, (runHeartbeatLoop writeOk ev k acc).1 = acc ++ suf := by
        intro ev
        induction ev with
        | nil => intro k acc; exact ⟨[], by simp [runHeartbeatLoop]⟩
        | cons e rest ih =>
          intro k acc
          cases e with
          | cancel => exact ⟨[], by simp [runHeartbeatLoop]⟩
          | tick =>
            unfold runHeartbeatLoop
            by_cases hwk : writeOk k = true
            · rw [if_pos hwk]
              obtain ⟨suf, hsuf⟩ := ih (k + 1) (acc ++ utf8Bytes ":keepalive\n\n")
              exact ⟨utf8Bytes ":keepalive\n\n" ++ suf, by rw [hsuf, List.append_assoc]⟩
            · rw [if_neg hwk]
              exact ⟨[], by simp⟩
      obtain ⟨suf, hsuf⟩ := hpre events 0 (utf8Bytes ":ok\n\n")
      rw [← hw, hsuf]
      have hlen : (utf8Bytes ":ok\n\n").length = 5 := by decide
      rw [← hlen, List.take_left]
  · unfold serveHTTP
    rw [if_pos ⟨hm, hp⟩]
    exact ⟨rfl, rfl⟩

/-- Counterexample to C8 as stated: with a flushing writer and no
cancellation, a single failed keepalive write ends the loop — an exit
without the cancellation signal, refuting "no other exit condition
exists". -/
theorem event_stream_counterexample :
    serveEventStream true true (fun _ => false) [SSEEvent.tick] =
      SSEOutcome.stream sseHeader (utf8Bytes ":ok\n\n") (some SSEExit.writeError) ∧
    SSEExit.writeError ≠ SSEExit.canceled ∧
    SSEEvent.cancel ∉ [SSEEvent.tick] := by
  refine ⟨?_, by decide, by decide⟩
  decide

/-- Witness for the amended C8: cancellation 60 time units in, after
two 25-unit heartbeats. -/
theorem event_stream_behavior_witness :
    serveEventStream true true (fun _ => true) (timedEvents 60) =
      SSEOutcome.stream sseHeader
        (utf8Bytes ":ok\n\n" ++
          (List.replicate (60 / keepaliveInterval) (utf8Bytes ":keepalive\n\n")).flatten)
        (some SSEExit.canceled) :=
  (event_stream_behavior (fun _ => true) []).2.1 60
